import Mathlib

/-!
Shallow embedding of the CHIP-8 emulator (logandarby/chip-8-emulator).

Machine integers are modelled as `Nat`, with an explicit `% 2^w` at every
operation where the Rust code performs wrapping width-`w` arithmetic.
Fallible operations (array indexing that can panic, `unwrap`, `expect`)
return `Option`: `none` models a panic.

Sources embedded:
- `src/primitive.rs`: `Instruction`, `RegOperation`, `SkipIf`, nibble helpers.
- `src/cpu.rs`: the `CPU` struct and its operations.
- `src/decoder.rs`: `Decoder::decode`.
- `src/hardware.rs`: `Hardware::execute_instruction`, `execute_reg_op`,
  `execute_draw`, `handle_key_when_waiting`.
- `src/chip8.rs`: the legacy synchronous `Chip8::execute_reg_op`.
- `src/screen.rs`: the framebuffer (`get_pixel`, `set_pixel`, `get_idx`).
-/

namespace Chip8Emu

/-- Interpreter variants (`Chip8Version` in `chip8.rs`; `hardware.rs`
branches only on whether the version equals `Cosmac`). -/
inductive Chip8Version where
  | Cosmac
  | Chip48
  | SuperChip
deriving DecidableEq, Repr

/-- Modelled from the spec: the keypad key-event edge
(`Chip8KeyEventKind` is defined outside `src/`; §3 of the spec describes
press/release edges, and `hardware.rs` compares values for equality). -/
inductive Chip8KeyEventKind where
  | Press
  | Release
deriving DecidableEq, Repr

/-- `RegOperation` from `primitive.rs`. -/
inductive RegOperation where
  | Set
  | Or
  | And
  | Xor
  | Add
  | Sub
  | SubInv
  | ShiftLeft
  | ShiftRight
deriving DecidableEq, Repr

/-- `SkipIf` from `primitive.rs`. -/
inductive SkipIf where
  | Eq
  | NotEq
deriving DecidableEq, Repr

/-- `Instruction` from `primitive.rs`.  Validated primitives are modelled
as `Nat`: the decoder only builds register indices `< 16`, 4-bit
immediates `< 16`, 8-bit immediates `< 256` and 12-bit addresses `< 4096`. -/
inductive Instruction where
  | ClearScreen
  | Draw (regx regy n : Nat)
  | SetFont (regx : Nat)
  | Jump (addr : Nat)
  | JumpWithOffset (addr : Nat)
  | CallSubroutine (addr : Nat)
  | Return
  | Skip (sif : SkipIf) (regx nn : Nat)
  | SkipReg (sif : SkipIf) (regx regy : Nat)
  | SkipKeyPress (sif : SkipIf) (regx : Nat)
  | GetKey (regx : Nat)
  | RegOp (op : RegOperation) (regx regy : Nat)
  | SetRegImmediate (regx nn : Nat)
  | AddRegImmediate (regx nn : Nat)
  | Random (regx nn : Nat)
  | StoreAddr (regx : Nat)
  | LoadAddr (regx : Nat)
  | SetSoundTimer (regx : Nat)
  | SetDelayTimer (regx : Nat)
  | GetDelayTimer (regx : Nat)
  | SetIndex (addr : Nat)
  | AddIndex (regx : Nat)
  | BinaryDecimalConv (regx : Nat)
  | ExecuteMachineLangRoutine
  | Invalid
deriving DecidableEq, Repr

/-- The `CPU` struct from `cpu.rs`.  `memory` is the 4096-byte array
(meaningful at indices `< 4096`), `gen_r` the 16 general registers
(meaningful at indices `< 16`), `stack` a `Vec<u16>` with its top at the
head of the list. -/
structure CPU where
  memory : Nat → Nat
  pc_r : Nat
  index_r : Nat
  gen_r : Nat → Nat
  stack : List Nat
  delay_timer : Nat
  sound_timer : Nat
  waiting_for_key : Option Nat

namespace CPU

/-- `CPU::MEMORY_SIZE`. -/
def MEMORY_SIZE : Nat := 4096

/-- `CPU::register_val`. -/
def register_val (c : CPU) (reg : Nat) : Nat := c.gen_r reg

/-- `CPU::register_set`. -/
def register_set (c : CPU) (reg value : Nat) : CPU :=
  { c with gen_r := Function.update c.gen_r reg value }

/-- `CPU::load_from_addr`: `self.memory[addr as usize]` — the raw index
is used; an index `≥ 4096` is out of bounds and panics (`none`). -/
def load_from_addr (c : CPU) (addr : Nat) : Option Nat :=
  if addr < MEMORY_SIZE then some (c.memory addr) else none

/-- `CPU::store_in_addr`: `self.memory[addr as usize] = value`. -/
def store_in_addr (c : CPU) (addr value : Nat) : Option CPU :=
  if addr < MEMORY_SIZE then
    some { c with memory := Function.update c.memory addr value }
  else none

/-- `CPU::increment_pc`: `self.pc_r += 2` on a `u16`. -/
def increment_pc (c : CPU) : CPU := { c with pc_r := (c.pc_r + 2) % 65536 }

/-- `CPU::jump_to`. -/
def jump_to (c : CPU) (addr : Nat) : CPU := { c with pc_r := addr }

/-- `CPU::fetch_current_instruction`: reads `memory[pc]` and
`memory[pc + 1]` and assembles the big-endian 16-bit opcode. -/
def fetch_current_instruction (c : CPU) : Option Nat :=
  match load_from_addr c c.pc_r, load_from_addr c (c.pc_r + 1) with
  | some b1, some b2 => some ((b1 % 256) * 256 + b2 % 256)
  | _, _ => none

/-- `CPU::set_index`. -/
def set_index (c : CPU) (value : Nat) : CPU := { c with index_r := value }

/-- `CPU::push_stack`: `self.stack.push(addr)` — a plain `Vec` push,
unconditional, no capacity check. -/
def push_stack (c : CPU) (addr : Nat) : CPU := { c with stack := addr :: c.stack }

/-- `CPU::pop_stack`: `self.stack.pop()`. -/
def pop_stack (c : CPU) : Option (Nat × CPU) :=
  match c.stack with
  | [] => none
  | a :: rest => some (a, { c with stack := rest })

/-- `CPU::add_reg`: `overflowing_add` on `u8`. -/
def add_reg (c : CPU) (reg value : Nat) : CPU :=
  register_set c reg ((register_val c reg + value) % 256)

/-- `CPU::add_index`: `self.index_r += value` on a `u16`. -/
def add_index (c : CPU) (value : Nat) : CPU :=
  { c with index_r := (c.index_r + value) % 65536 }

/-- `CPU::binary_decimal_conv`: BCD of `Vx` stored at `I`, `I+1`, `I+2`
(the `+ 1`/`+ 2` are `u16` additions). -/
def binary_decimal_conv (c : CPU) (reg : Nat) : Option CPU :=
  let value := register_val c reg
  (store_in_addr c c.index_r (value / 100)).bind fun c1 =>
    (store_in_addr c1 ((c1.index_r + 1) % 65536) (value % 100 / 10)).bind fun c2 =>
      store_in_addr c2 ((c2.index_r + 2) % 65536) (value % 10)

/-- Loop body of `CPU::load_registers`: registers `i, i+1, …` for `fuel`
steps, loading from `I + i` (`u16` addition). -/
def load_registers_aux : Nat → Nat → CPU → Option CPU
  | 0, _, c => some c
  | fuel + 1, i, c =>
    match load_from_addr c ((c.index_r + i) % 65536) with
    | none => none
    | some v => load_registers_aux fuel (i + 1) (register_set c i v)

/-- `CPU::load_registers`: `for i in 0..=x { Vi ← M[I+i] }`. -/
def load_registers (c : CPU) (up_to_reg : Nat) : Option CPU :=
  load_registers_aux (up_to_reg + 1) 0 c

/-- Loop body of `CPU::store_registers`. -/
def store_registers_aux : Nat → Nat → CPU → Option CPU
  | 0, _, c => some c
  | fuel + 1, i, c =>
    match store_in_addr c ((c.index_r + i) % 65536) (register_val c i) with
    | none => none
    | some c' => store_registers_aux fuel (i + 1) c'

/-- `CPU::store_registers`: `for i in 0..=x { M[I+i] ← Vi }`. -/
def store_registers (c : CPU) (up_to_reg : Nat) : Option CPU :=
  store_registers_aux (up_to_reg + 1) 0 c

/-- `CPU::load_registers_cosmac`: also advances `I` by `x + 1`. -/
def load_registers_cosmac (c : CPU) (up_to_reg : Nat) : Option CPU :=
  (load_registers c up_to_reg).map fun c' =>
    { c' with index_r := (c'.index_r + up_to_reg + 1) % 65536 }

/-- `CPU::store_registers_cosmac`: also advances `I` by `x + 1`. -/
def store_registers_cosmac (c : CPU) (up_to_reg : Nat) : Option CPU :=
  (store_registers c up_to_reg).map fun c' =>
    { c' with index_r := (c'.index_r + up_to_reg + 1) % 65536 }

/-- `CPU::start_waiting_for_key`. -/
def start_waiting_for_key (c : CPU) (reg : Nat) : CPU :=
  { c with waiting_for_key := some reg }

/-- `CPU::stop_waiting_for_key`: `self.waiting_for_key.take()`. -/
def stop_waiting_for_key (c : CPU) : Option Nat × CPU :=
  (c.waiting_for_key, { c with waiting_for_key := none })

/-- `CPU::set_delay_timer`. -/
def set_delay_timer (c : CPU) (value : Nat) : CPU := { c with delay_timer := value }

/-- `CPU::set_sound_timer`. -/
def set_sound_timer (c : CPU) (value : Nat) : CPU := { c with sound_timer := value }

end CPU

/-! ## Screen (`screen.rs`) -/

/-- The `Screen` struct from `screen.rs`: a flat `[bool; 64*32]` pixel
array in row-major order (meaningful at indices `< 2048`). -/
structure Screen where
  pixels : Nat → Bool

namespace Screen

/-- `Screen::N_ROWS`. -/
def N_ROWS : Nat := 32

/-- `Screen::N_COLS`. -/
def N_COLS : Nat := 64

/-- `Screen::get_idx`: row-major index `y*64 + x`. -/
def get_idx (x y : Nat) : Nat := y * N_COLS + x

/-- `Screen::get_pixel`: `None` when the coordinate is out of range. -/
def get_pixel (s : Screen) (x y : Nat) : Option Bool :=
  if N_COLS ≤ x ∨ N_ROWS ≤ y then none else some (s.pixels (get_idx x y))

/-- `Screen::set_pixel`: out-of-range stores are silently dropped. -/
def set_pixel (s : Screen) (x y : Nat) (value : Bool) : Screen :=
  if N_COLS ≤ x ∨ N_ROWS ≤ y then s
  else { pixels := Function.update s.pixels (get_idx x y) value }

/-- `Screen::clear`. -/
def clear (_ : Screen) : Screen := { pixels := fun _ => false }

end Screen

/-! ## Decoder (`decoder.rs` and the nibble helpers of `primitive.rs`) -/

namespace Decoder

/-- First nibble of `RawInstruction::to_nibbles`. -/
def nib1 (raw : Nat) : Nat := (raw &&& 0xF000) >>> 12

/-- Second nibble (the `X` operand). -/
def nib2 (raw : Nat) : Nat := (raw &&& 0x0F00) >>> 8

/-- Third nibble (the `Y` operand). -/
def nib3 (raw : Nat) : Nat := (raw &&& 0x00F0) >>> 4

/-- Fourth nibble (the `N` operand). -/
def nib4 (raw : Nat) : Nat := raw &&& 0x000F

/-- `RawInstruction::nnn`. -/
def nnn (raw : Nat) : Nat := raw &&& 0x0FFF

/-- `RawInstruction::nn`. -/
def nn (raw : Nat) : Nat := raw &&& 0x00FF

/-- `Decoder::decode`: the `match` of `decoder.rs` transcribed as an
ordered test chain; `none` models the decode failures (`return None`). -/
def decode (raw : Nat) : Option Instruction :=
  if nib1 raw = 0 ∧ nib2 raw = 0 ∧ nib3 raw = 0xE ∧ nib4 raw = 0 then
    some .ClearScreen
  else if nib1 raw = 0 ∧ nib2 raw = 0 ∧ nib3 raw = 0xE ∧ nib4 raw = 0xE then
    some .Return
  else if nib1 raw = 0 then some .ExecuteMachineLangRoutine
  else if nib1 raw = 0xD then some (.Draw (nib2 raw) (nib3 raw) (nib4 raw))
  else if nib1 raw = 0xF ∧ nib3 raw = 0x2 ∧ nib4 raw = 0x9 then
    some (.SetFont (nib2 raw))
  else if nib1 raw = 0x1 then some (.Jump (nnn raw))
  else if nib1 raw = 0xB then some (.JumpWithOffset (nnn raw))
  else if nib1 raw = 0x2 then some (.CallSubroutine (nnn raw))
  else if nib1 raw = 0x3 then some (.Skip .Eq (nib2 raw) (nn raw))
  else if nib1 raw = 0x4 then some (.Skip .NotEq (nib2 raw) (nn raw))
  else if nib1 raw = 0x5 ∧ nib4 raw = 0x0 then
    some (.SkipReg .Eq (nib2 raw) (nib3 raw))
  else if nib1 raw = 0x9 ∧ nib4 raw = 0x0 then
    some (.SkipReg .NotEq (nib2 raw) (nib3 raw))
  else if nib1 raw = 0xF ∧ nib3 raw = 0x0 ∧ nib4 raw = 0xA then
    some (.GetKey (nib2 raw))
  else if nib1 raw = 0xE ∧ nib3 raw = 0x9 ∧ nib4 raw = 0xE then
    some (.SkipKeyPress .Eq (nib2 raw))
  else if nib1 raw = 0xE ∧ nib3 raw = 0xA ∧ nib4 raw = 0x1 then
    some (.SkipKeyPress .NotEq (nib2 raw))
  else if nib1 raw = 0x6 then some (.SetRegImmediate (nib2 raw) (nn raw))
  else if nib1 raw = 0x7 then some (.AddRegImmediate (nib2 raw) (nn raw))
  else if nib1 raw = 0x8 then
    match nib4 raw with
    | 0x0 => some (.RegOp .Set (nib2 raw) (nib3 raw))
    | 0x1 => some (.RegOp .Or (nib2 raw) (nib3 raw))
    | 0x2 => some (.RegOp .And (nib2 raw) (nib3 raw))
    | 0x3 => some (.RegOp .Xor (nib2 raw) (nib3 raw))
    | 0x4 => some (.RegOp .Add (nib2 raw) (nib3 raw))
    | 0x5 => some (.RegOp .Sub (nib2 raw) (nib3 raw))
    | 0x7 => some (.RegOp .SubInv (nib2 raw) (nib3 raw))
    | 0x6 => some (.RegOp .ShiftRight (nib2 raw) (nib3 raw))
    | 0xE => some (.RegOp .ShiftLeft (nib2 raw) (nib3 raw))
    | _ => none
  else if nib1 raw = 0xF ∧ nib3 raw = 0x5 ∧ nib4 raw = 0x5 then
    some (.StoreAddr (nib2 raw))
  else if nib1 raw = 0xF ∧ nib3 raw = 0x6 ∧ nib4 raw = 0x5 then
    some (.LoadAddr (nib2 raw))
  else if nib1 raw = 0xF ∧ nib3 raw = 0x0 ∧ nib4 raw = 0x7 then
    some (.GetDelayTimer (nib2 raw))
  else if nib1 raw = 0xF ∧ nib3 raw = 0x1 ∧ nib4 raw = 0x5 then
    some (.SetDelayTimer (nib2 raw))
  else if nib1 raw = 0xF ∧ nib3 raw = 0x1 ∧ nib4 raw = 0x8 then
    some (.SetSoundTimer (nib2 raw))
  else if nib1 raw = 0xA then some (.SetIndex (nnn raw))
  else if nib1 raw = 0xF ∧ nib3 raw = 0x1 ∧ nib4 raw = 0xE then
    some (.AddIndex (nib2 raw))
  else if nib1 raw = 0xC then some (.Random (nib2 raw) (nn raw))
  else if nib1 raw = 0xF ∧ nib3 raw = 0x3 ∧ nib4 raw = 0x3 then
    some (.BinaryDecimalConv (nib2 raw))
  else none

/-- How every caller in the repository consumes a decode failure:
`Decoder::decode(raw).unwrap_or(Instruction::Invalid)`. -/
def decodeTotal (raw : Nat) : Instruction := (decode raw).getD .Invalid

end Decoder

/-! ## Register operations: `Hardware::execute_reg_op` (`hardware.rs`) and
the legacy `Chip8::execute_reg_op` (`chip8.rs`).  Both read `vx`, `vy`
once at entry and then dispatch; their `u8` arithmetic carries an
explicit `% 256`. -/

/-- `Hardware::execute_reg_op` from `hardware.rs`.  `vf()` is register 15;
each `match` arm performs its register writes in source order. -/
def hardwareExecuteRegOp (version : Chip8Version) (reg_op : RegOperation)
    (regx regy : Nat) (c : CPU) : CPU :=
  let vx := c.register_val regx
  let vy := c.register_val regy
  match reg_op with
  | .Set => c.register_set regx vy
  | .Or => c.register_set regx (vx ||| vy)
  | .Xor => c.register_set regx (vx ^^^ vy)
  | .And => c.register_set regx (vx &&& vy)
  | .Add =>
    (c.register_set regx ((vx + vy) % 256)).register_set 15
      (if 256 ≤ vx + vy then 1 else 0)
  | .Sub =>
    (c.register_set regx ((256 + vx - vy) % 256)).register_set 15
      (if vy < vx then 1 else 0)
  | .SubInv =>
    (c.register_set regx ((256 + vy - vx) % 256)).register_set 15
      (if vx < vy then 1 else 0)
  | .ShiftLeft =>
    let p := if version = Chip8Version.Cosmac then (c.register_set regx vy, vy) else (c, vx)
    (p.1.register_set 15 ((p.2 &&& 0x80) >>> 7)).register_set regx ((p.2 <<< 1) % 256)
  | .ShiftRight =>
    let p := if version = Chip8Version.Cosmac then (c.register_set regx vy, vy) else (c, vx)
    (p.1.register_set 15 (p.2 &&& 1)).register_set regx (p.2 >>> 1)

/-- `Chip8::execute_reg_op` from `chip8.rs` (the legacy synchronous
interpreter): same structure, transcribed from its own source. -/
def chip8ExecuteRegOp (version : Chip8Version) (reg_op : RegOperation)
    (regx regy : Nat) (c : CPU) : CPU :=
  let vx := c.register_val regx
  let vy := c.register_val regy
  match reg_op with
  | .Set => c.register_set regx vy
  | .Or => c.register_set regx (vx ||| vy)
  | .Xor => c.register_set regx (vx ^^^ vy)
  | .And => c.register_set regx (vx &&& vy)
  | .Add =>
    (c.register_set regx ((vx + vy) % 256)).register_set 15
      (if 256 ≤ vx + vy then 1 else 0)
  | .Sub =>
    (c.register_set regx ((256 + vx - vy) % 256)).register_set 15
      (if vy < vx then 1 else 0)
  | .SubInv =>
    (c.register_set regx ((256 + vy - vx) % 256)).register_set 15
      (if vx < vy then 1 else 0)
  | .ShiftLeft =>
    let p := if version = Chip8Version.Cosmac then (c.register_set regx vy, vy) else (c, vx)
    (p.1.register_set 15 ((p.2 &&& 0x80) >>> 7)).register_set regx ((p.2 <<< 1) % 256)
  | .ShiftRight =>
    let p := if version = Chip8Version.Cosmac then (c.register_set regx vy, vy) else (c, vx)
    (p.1.register_set 15 (p.2 &&& 1)).register_set regx (p.2 >>> 1)

/-! ## Sprite drawing (`Hardware::execute_draw`, `hardware.rs` lines
249-281).  The two nested `for` loops with `break` are modelled by fuel
recursion: `fuel` counts the remaining iterations, and a `break` returns
the accumulator unchanged.  The in-loop writes to the VF register are
threaded as a `Nat` accumulator (initialised 0 by the `*vf() = 0` store)
because the loop body never reads a register. -/

/-- Inner bit loop of `execute_draw`: bit positions `bitPos..bitPos+fuel`
of one sprite row at screen row `y`.  `none` models the
`get_pixel(..).unwrap()` panic (unreachable when `y < 32`). -/
def drawBits (startX y spriteData : Nat) :
    Nat → Nat → Screen → Nat → Option (Screen × Nat)
  | 0, _, s, vf => some (s, vf)
  | fuel + 1, bitPos, s, vf =>
    let x := startX + bitPos
    if Screen.N_COLS ≤ x then some (s, vf)
    else
      let sprite_bit := (spriteData >>> (7 - bitPos)) &&& 1
      if sprite_bit = 1 then
        match s.get_pixel x y with
        | none => none
        | some pixel =>
          if pixel then
            drawBits startX y spriteData fuel (bitPos + 1) (s.set_pixel x y false) 1
          else
            drawBits startX y spriteData fuel (bitPos + 1) (s.set_pixel x y true) vf
      else drawBits startX y spriteData fuel (bitPos + 1) s vf

/-- Outer row loop of `execute_draw`: rows `row..row+fuel`, sprite bytes
loaded from `I + row` (`u16` addition, unmasked memory access). -/
def drawRows (mem : Nat → Nat) (idx startX startY : Nat) :
    Nat → Nat → Screen → Nat → Option (Screen × Nat)
  | 0, _, s, vf => some (s, vf)
  | fuel + 1, row, s, vf =>
    let y := startY + row
    if Screen.N_ROWS ≤ y then some (s, vf)
    else
      let addr := (idx + row) % 65536
      if addr < CPU.MEMORY_SIZE then
        match drawBits startX y (mem addr) 8 0 s vf with
        | none => none
        | some (s', vf') => drawRows mem idx startX startY fuel (row + 1) s' vf'
      else none

/-- The screen/VF core of `execute_draw`, abstracted over the coordinate
register values `vx`, `vy` (read once at entry in the source): start at
`(vx % 64, vy % 32)`, VF starts at 0, draw `n` rows. -/
def drawCore (mem : Nat → Nat) (idx vx vy n : Nat) (s : Screen) :
    Option (Screen × Nat) :=
  drawRows mem idx (vx % Screen.N_COLS) (vy % Screen.N_ROWS) n 0 s 0

/-! ### Characterisation of the drawn pixel set

`rowHit` (one sprite row) and `drawnAt` (the whole clipped sprite) decide
whether a flat framebuffer index is flipped by the draw; `rowColl` /
`collAt` decide whether the draw turns some lit pixel off.  These feed
the DRAW self-inverse proof. -/

/-- Bits `bitPos..7` of one sprite row at screen row `y` flip flat index
`i`. -/
def rowHit (startX y spriteData bitPos i : Nat) : Bool :=
  (List.range 8).any fun b =>
    decide (bitPos ≤ b) && decide (startX + b < 64) &&
    decide ((spriteData >>> (7 - b)) &&& 1 = 1) &&
    decide (i = Screen.get_idx (startX + b) y)

/-- Bits `bitPos..7` of one sprite row turn some lit pixel of `s` off. -/
def rowColl (startX y spriteData bitPos : Nat) (s : Screen) : Bool :=
  (List.range 8).any fun b =>
    decide (bitPos ≤ b) && decide (startX + b < 64) &&
    decide ((spriteData >>> (7 - b)) &&& 1 = 1) &&
    s.pixels (Screen.get_idx (startX + b) y)

/-- Rows `row..row+fuel` of the sprite flip flat index `i`. -/
def drawnAt (mem : Nat → Nat) (idx startX startY fuel row i : Nat) : Bool :=
  (List.range fuel).any fun r =>
    decide (startY + (row + r) < 32) &&
    rowHit startX (startY + (row + r)) (mem ((idx + (row + r)) % 65536)) 0 i

/-- Rows `row..row+fuel` of the sprite turn some lit pixel of `s` off. -/
def collAt (mem : Nat → Nat) (idx startX startY fuel row : Nat) (s : Screen) : Bool :=
  (List.range fuel).any fun r =>
    decide (startY + (row + r) < 32) &&
    rowColl startX (startY + (row + r)) (mem ((idx + (row + r)) % 65536)) 0 s

/-- All sprite-byte loads of rows `row..row+fuel` are in memory range
(up to the clip at the bottom edge). -/
def rowsOk (_mem : Nat → Nat) (idx startY fuel row : Nat) : Bool :=
  (List.range fuel).all fun r =>
    !(decide (startY + (row + r) < 32)) || decide ((idx + (row + r)) % 65536 < 4096)

/-- `rowHit` as a bounded existential. -/
theorem rowHit_iff (startX y d bitPos i : Nat) :
    rowHit startX y d bitPos i = true ↔
      ∃ b, b < 8 ∧ bitPos ≤ b ∧ startX + b < 64 ∧
        (d >>> (7 - b)) &&& 1 = 1 ∧ i = Screen.get_idx (startX + b) y := by
  simp [rowHit, List.any_eq_true, List.mem_range, Bool.and_eq_true,
    decide_eq_true_eq, and_assoc, Nat.testBit_to_div_mod, Nat.shiftRight_eq_div_pow]

/-- `rowColl` as a bounded existential. -/
theorem rowColl_iff (startX y d bitPos : Nat) (s : Screen) :
    rowColl startX y d bitPos s = true ↔
      ∃ b, b < 8 ∧ bitPos ≤ b ∧ startX + b < 64 ∧
        (d >>> (7 - b)) &&& 1 = 1 ∧ s.pixels (Screen.get_idx (startX + b) y) = true := by
  simp [rowColl, List.any_eq_true, List.mem_range, Bool.and_eq_true,
    decide_eq_true_eq, and_assoc, Nat.testBit_to_div_mod, Nat.shiftRight_eq_div_pow]

/-- `drawnAt` as a bounded existential. -/
theorem drawnAt_iff (mem : Nat → Nat) (idx startX startY fuel row i : Nat) :
    drawnAt mem idx startX startY fuel row i = true ↔
      ∃ r, r < fuel ∧ startY + (row + r) < 32 ∧
        rowHit startX (startY + (row + r)) (mem ((idx + (row + r)) % 65536)) 0 i = true := by
  simp [drawnAt, List.any_eq_true, List.mem_range, Bool.and_eq_true, decide_eq_true_eq]

/-- `collAt` as a bounded existential. -/
theorem collAt_iff (mem : Nat → Nat) (idx startX startY fuel row : Nat) (s : Screen) :
    collAt mem idx startX startY fuel row s = true ↔
      ∃ r, r < fuel ∧ startY + (row + r) < 32 ∧
        rowColl startX (startY + (row + r)) (mem ((idx + (row + r)) % 65536)) 0 s = true := by
  simp [collAt, List.any_eq_true, List.mem_range, Bool.and_eq_true, decide_eq_true_eq]

/-- Row-major flat indices are injective on in-range columns. -/
theorem get_idx_inj {x1 y1 x2 y2 : Nat} (h1 : x1 < 64) (h2 : x2 < 64) :
    Screen.get_idx x1 y1 = Screen.get_idx x2 y2 ↔ x1 = x2 ∧ y1 = y2 := by
  simp only [Screen.get_idx, Screen.N_COLS]
  omega

/-- Past the last bit there are no hits. -/
theorem rowHit_end (startX y d bitPos i : Nat) (h : 8 ≤ bitPos) :
    rowHit startX y d bitPos i = false := by
  rcases hH : rowHit startX y d bitPos i with _ | _
  · rfl
  · obtain ⟨b, hb8, hbp, _⟩ := (rowHit_iff startX y d bitPos i).1 hH
    omega

/-- Past the last bit there are no collisions. -/
theorem rowColl_end (startX y d bitPos : Nat) (s : Screen) (h : 8 ≤ bitPos) :
    rowColl startX y d bitPos s = false := by
  rcases hH : rowColl startX y d bitPos s with _ | _
  · rfl
  · obtain ⟨b, hb8, hbp, _⟩ := (rowColl_iff startX y d bitPos s).1 hH
    omega

/-- Once the row is clipped at the right edge there are no hits. -/
theorem rowHit_clip (startX y d bitPos i : Nat) (h : 64 ≤ startX + bitPos) :
    rowHit startX y d bitPos i = false := by
  rcases hH : rowHit startX y d bitPos i with _ | _
  · rfl
  · obtain ⟨b, hb8, hbp, hb64, _⟩ := (rowHit_iff startX y d bitPos i).1 hH
    omega

/-- Once the row is clipped at the right edge there are no collisions. -/
theorem rowColl_clip (startX y d bitPos : Nat) (s : Screen) (h : 64 ≤ startX + bitPos) :
    rowColl startX y d bitPos s = false := by
  rcases hH : rowColl startX y d bitPos s with _ | _
  · rfl
  · obtain ⟨b, hb8, hbp, hb64, _⟩ := (rowColl_iff startX y d bitPos s).1 hH
    omega

/-- Advancing past a bit that misses `i` (because the index differs, the
sprite bit is clear, or the column is clipped) keeps the hit set. -/
theorem rowHit_step (startX y d bitPos i : Nat)
    (h : i ≠ Screen.get_idx (startX + bitPos) y ∨ (d >>> (7 - bitPos)) &&& 1 ≠ 1 ∨
      64 ≤ startX + bitPos) :
    rowHit startX y d bitPos i = rowHit startX y d (bitPos + 1) i := by
  rw [Bool.eq_iff_iff, rowHit_iff, rowHit_iff]
  constructor
  · rintro ⟨b, hb8, hbp, hb64, hbit, hidx⟩
    refine ⟨b, hb8, ?_, hb64, hbit, hidx⟩
    rcases Nat.eq_or_lt_of_le hbp with rfl | hlt
    · rcases h with h | h | h
      · exact absurd hidx h
      · exact absurd hbit h
      · omega
    · omega
  · rintro ⟨b, hb8, hbp, hb64, hbit, hidx⟩
    exact ⟨b, hb8, by omega, hb64, hbit, hidx⟩

/-- Advancing past a bit that cannot collide keeps the collision set. -/
theorem rowColl_step (startX y d bitPos : Nat) (s : Screen)
    (h : s.pixels (Screen.get_idx (startX + bitPos) y) ≠ true ∨
      (d >>> (7 - bitPos)) &&& 1 ≠ 1 ∨ 64 ≤ startX + bitPos) :
    rowColl startX y d bitPos s = rowColl startX y d (bitPos + 1) s := by
  rw [Bool.eq_iff_iff, rowColl_iff, rowColl_iff]
  constructor
  · rintro ⟨b, hb8, hbp, hb64, hbit, hpix⟩
    refine ⟨b, hb8, ?_, hb64, hbit, hpix⟩
    rcases Nat.eq_or_lt_of_le hbp with rfl | hlt
    · rcases h with h | h | h
      · exact absurd hpix h
      · exact absurd hbit h
      · omega
    · omega
  · rintro ⟨b, hb8, hbp, hb64, hbit, hpix⟩
    exact ⟨b, hb8, by omega, hb64, hbit, hpix⟩

/-- The current bit's own index is hit when the bit is set and in
range. -/
theorem rowHit_at (startX y d bitPos : Nat) (hb8 : bitPos < 8)
    (h64 : startX + bitPos < 64) (hbit : (d >>> (7 - bitPos)) &&& 1 = 1) :
    rowHit startX y d bitPos (Screen.get_idx (startX + bitPos) y) = true :=
  (rowHit_iff _ _ _ _ _).2 ⟨bitPos, hb8, Nat.le_refl _, h64, hbit, rfl⟩

/-- Bits above `bitPos` never hit the current bit's own index. -/
theorem rowHit_above_at (startX y d bitPos : Nat) (h64 : startX + bitPos < 64) :
    rowHit startX y d (bitPos + 1) (Screen.get_idx (startX + bitPos) y) = false := by
  rcases hH : rowHit startX y d (bitPos + 1) (Screen.get_idx (startX + bitPos) y) with _ | _
  · rfl
  · obtain ⟨b, hb8, hbp, hb64, hbit, hidx⟩ :=
      (rowHit_iff startX y d (bitPos + 1) _).1 hH
    have := (get_idx_inj h64 hb64).1 hidx
    omega

/-- Collisions from `bitPos+1` on ignore an update at the current bit's
own index. -/
theorem rowColl_update (startX y d bitPos : Nat) (s : Screen) (v : Bool)
    (h64 : startX + bitPos < 64) :
    rowColl startX y d (bitPos + 1)
      ⟨Function.update s.pixels (Screen.get_idx (startX + bitPos) y) v⟩ =
      rowColl startX y d (bitPos + 1) s := by
  rw [Bool.eq_iff_iff, rowColl_iff, rowColl_iff]
  constructor
  · rintro ⟨b, hb8, hbp, hb64, hbit, hpix⟩
    refine ⟨b, hb8, hbp, hb64, hbit, ?_⟩
    dsimp only at hpix
    rwa [Function.update_noteq (by
      intro hcon
      have := (get_idx_inj hb64 h64).1 hcon
      omega)] at hpix
  · rintro ⟨b, hb8, hbp, hb64, hbit, hpix⟩
    refine ⟨b, hb8, hbp, hb64, hbit, ?_⟩
    dsimp only
    rwa [Function.update_noteq (by
      intro hcon
      have := (get_idx_inj hb64 h64).1 hcon
      omega)]

/-- `rowColl` only reads the pixels of its own row. -/
theorem rowColl_congr (startX y d bitPos : Nat) (s s' : Screen)
    (hagree : ∀ x', x' < 64 → s.pixels (Screen.get_idx x' y) = s'.pixels (Screen.get_idx x' y)) :
    rowColl startX y d bitPos s = rowColl startX y d bitPos s' := by
  rw [Bool.eq_iff_iff, rowColl_iff, rowColl_iff]
  constructor
  · rintro ⟨b, hb8, hbp, hb64, hbit, hpix⟩
    exact ⟨b, hb8, hbp, hb64, hbit, by rwa [← hagree _ hb64]⟩
  · rintro ⟨b, hb8, hbp, hb64, hbit, hpix⟩
    exact ⟨b, hb8, hbp, hb64, hbit, by rwa [hagree _ hb64]⟩

/-- `rowsOk` as a bounded universal. -/
theorem rowsOk_iff (mem : Nat → Nat) (idx startY fuel row : Nat) :
    rowsOk mem idx startY fuel row = true ↔
      ∀ r, r < fuel → startY + (row + r) < 32 → (idx + (row + r)) % 65536 < 4096 := by
  simp only [rowsOk, List.all_eq_true, List.mem_range, Bool.or_eq_true, Bool.not_eq_true',
    decide_eq_true_eq, decide_eq_false_iff_not]
  constructor
  · intro hall r hr hy
    rcases hall r hr with hn | hok
    · exact absurd hy hn
    · exact hok
  · intro hall r hr
    by_cases hy : startY + (row + r) < 32
    · exact Or.inr (hall r hr hy)
    · exact Or.inl hy

/-! ## Hardware façade (`hardware.rs`) -/

/-- The fields of `Hardware` that instruction execution touches: the CPU,
the screen, the keypad state (`Chip8KeyState::is_key_pressed`, one flag
per key) and the configured variant. -/
structure Hardware where
  cpu : CPU
  screen : Screen
  key_state : Nat → Bool
  version : Chip8Version

namespace Hardware

/-- Helper: apply a CPU-only update. -/
def withCpu (h : Hardware) (c : CPU) : Hardware := { h with cpu := c }

/-- The trailing `self.cpu.increment_pc()` of `execute_instruction`. -/
def incPC (h : Hardware) : Hardware := h.withCpu h.cpu.increment_pc

/-- `Hardware::execute_draw`: reads `Vx`, `Vy`, zeroes VF, runs the loop
nest, leaving VF at the loop's final flag value. -/
def execute_draw (h : Hardware) (regx regy n : Nat) : Option Hardware :=
  match drawCore h.cpu.memory h.cpu.index_r (h.cpu.register_val regx)
      (h.cpu.register_val regy) n h.screen with
  | none => none
  | some (s', vf') => some { h with cpu := h.cpu.register_set 15 vf', screen := s' }

/-- `Hardware::execute_instruction`.  `randomByte` is the oracle for the
one `rand::random::<u8>()` call; `none` models a panic (out-of-bounds
memory access, `Address::new(..).unwrap()` failure, stack underflow, or
the `Invalid` arm's explicit `panic!`).  Arms that `return` early skip
the trailing `increment_pc`. -/
def execute_instruction (h : Hardware) (inst : Instruction) (randomByte : Nat) :
    Option Hardware :=
  match inst with
  | .ClearScreen => some (incPC { h with screen := h.screen.clear })
  | .Jump addr => some (h.withCpu (h.cpu.jump_to addr))
  | .RegOp op regx regy =>
    some (incPC (h.withCpu (hardwareExecuteRegOp h.version op regx regy h.cpu)))
  | .SetRegImmediate reg value => some (incPC (h.withCpu (h.cpu.register_set reg value)))
  | .AddRegImmediate reg value => some (incPC (h.withCpu (h.cpu.add_reg reg value)))
  | .SetIndex addr => some (incPC (h.withCpu (h.cpu.set_index addr)))
  | .AddIndex reg => some (incPC (h.withCpu (h.cpu.add_index (h.cpu.register_val reg))))
  | .Draw regx regy n => (h.execute_draw regx regy n).map incPC
  | .LoadAddr reg =>
    ((if h.version = Chip8Version.Cosmac then h.cpu.load_registers_cosmac reg
      else h.cpu.load_registers reg)).map fun c => incPC (h.withCpu c)
  | .StoreAddr reg =>
    ((if h.version = Chip8Version.Cosmac then h.cpu.store_registers_cosmac reg
      else h.cpu.store_registers reg)).map fun c => incPC (h.withCpu c)
  | .SetFont reg =>
    some (incPC (h.withCpu (h.cpu.set_index (0x50 + (h.cpu.register_val reg &&& 0x0F) * 5))))
  | .JumpWithOffset addr =>
    let addr_to_jump :=
      if h.version = Chip8Version.Cosmac then (addr + h.cpu.register_val 0) % 65536
      else (addr + h.cpu.register_val ((addr >>> 8) &&& 0xF)) % 65536
    if addr_to_jump &&& 0x0FFF = addr_to_jump then
      some (h.withCpu (h.cpu.jump_to addr_to_jump))
    else none
  | .CallSubroutine addr =>
    some (h.withCpu ((h.cpu.push_stack h.cpu.pc_r).jump_to addr))
  | .Return =>
    match h.cpu.pop_stack with
    | none => none
    | some (return_addr, c) =>
      if return_addr &&& 0x0FFF = return_addr then
        some (incPC (h.withCpu (c.jump_to return_addr)))
      else none
  | .Skip sif reg value =>
    let eq := h.cpu.register_val reg = value
    if (sif = .Eq ∧ eq) ∨ (sif = .NotEq ∧ ¬eq) then
      some (incPC (h.withCpu h.cpu.increment_pc))
    else some (incPC h)
  | .SkipReg sif regx regy =>
    let eq := h.cpu.register_val regx = h.cpu.register_val regy
    if (sif = .Eq ∧ eq) ∨ (sif = .NotEq ∧ ¬eq) then
      some (incPC (h.withCpu h.cpu.increment_pc))
    else some (incPC h)
  | .SkipKeyPress sif reg =>
    let pressed := h.key_state (h.cpu.register_val reg)
    if (sif = .Eq ∧ pressed) ∨ (sif = .NotEq ∧ ¬pressed) then
      some (incPC (h.withCpu h.cpu.increment_pc))
    else some (incPC h)
  | .GetKey reg => some (h.withCpu (h.cpu.start_waiting_for_key reg))
  | .Random reg value => some (incPC (h.withCpu (h.cpu.register_set reg (value &&& randomByte))))
  | .SetSoundTimer reg =>
    some (incPC (h.withCpu (h.cpu.set_sound_timer (h.cpu.register_val reg))))
  | .SetDelayTimer reg =>
    some (incPC (h.withCpu (h.cpu.set_delay_timer (h.cpu.register_val reg))))
  | .GetDelayTimer reg =>
    some (incPC (h.withCpu (h.cpu.register_set reg h.cpu.delay_timer)))
  | .BinaryDecimalConv reg =>
    (h.cpu.binary_decimal_conv reg).map fun c => incPC (h.withCpu c)
  | .Invalid => none
  | .ExecuteMachineLangRoutine => some (incPC h)

/-- `Hardware::handle_key_when_waiting`: offers a key event to the
key-wait latch; returns the updated hardware and the function's `bool`
result. -/
def handle_key_when_waiting (h : Hardware) (key : Nat) (kind : Chip8KeyEventKind) :
    Hardware × Bool :=
  match h.cpu.stop_waiting_for_key with
  | (none, c) => (h.withCpu c, false)
  | (some reg, c) =>
    let expected_kind :=
      if h.version = Chip8Version.Cosmac then Chip8KeyEventKind.Release
      else Chip8KeyEventKind.Press
    if kind = expected_kind then
      (h.withCpu ((c.register_set reg key).increment_pc), true)
    else
      (h.withCpu (c.start_waiting_for_key reg), false)

end Hardware

/-! ## Concrete states used by scenario conjuncts and counterexamples -/

/-- A zeroed CPU (`CPU::new`). -/
def cpu0 : CPU :=
  { memory := fun _ => 0, pc_r := 0, index_r := 0, gen_r := fun _ => 0,
    stack := [], delay_timer := 0, sound_timer := 0, waiting_for_key := none }

/-- An all-off screen. -/
def screen0 : Screen := { pixels := fun _ => false }

/-- A hardware state with a zeroed CPU and given variant. -/
def hw0 (v : Chip8Version) : Hardware :=
  { cpu := cpu0, screen := screen0, key_state := fun _ => false, version := v }

/-- CPU for the shift-quirk scenario: `V0 = 0x00`, `V1 = 0xFF`. -/
def cpuShiftQuirk : CPU :=
  { cpu0 with gen_r := fun i => if i = 1 then 0xFF else 0 }

/-- CPU whose `VF` holds 2 (counterexample to the flag-write order for SHR). -/
def cpuVF2 : CPU :=
  { cpu0 with gen_r := fun i => if i = 15 then 2 else 0 }

/-- CPU whose `V0` holds 2 (counterexample to `VF = bit 0` when `X = F`). -/
def cpuV0is2 : CPU :=
  { cpu0 with gen_r := fun i => if i = 0 then 2 else 0 }

/-- Hardware for the jump-offset-quirk scenario: `V0 = 0x10`, `V3 = 0x20`,
`PC = 0x200`. -/
def hwJumpQuirk (v : Chip8Version) : Hardware :=
  { hw0 v with
    cpu :=
      { cpu0 with
        pc_r := 0x200
        gen_r := fun i => if i = 0 then 0x10 else if i = 3 then 0x20 else 0 } }

/-- Hardware with the key-wait latch armed on `V3` (CHIP-48 variant). -/
def hwWaiting : Hardware :=
  { hw0 .Chip48 with cpu := { cpu0 with pc_r := 0x200, waiting_for_key := some 3 } }

/-- Hardware whose stack already holds 16 return addresses. -/
def hwStack16 : Hardware :=
  { hw0 .Cosmac with cpu := { cpu0 with pc_r := 0x400, stack := List.replicate 16 0x200 } }

/-- CPU with the program counter at 4096 (out of memory range). -/
def cpuPC4096 : CPU := { cpu0 with pc_r := 4096 }

/-- Hardware with `PC = 0x200` and zeroed registers (so `SKIP V0 == 0`
takes its skip). -/
def hwSkip : Hardware := { hw0 .Cosmac with cpu := { cpu0 with pc_r := 0x200 } }

/-- The instructions whose `execute_instruction` arm ends in the trailing
`increment_pc` (everything except the four early-`return` arms — `Jump`,
`JumpWithOffset`, `CallSubroutine`, `GetKey` — and `Return`, which also
writes PC from the stack before the final increment). -/
def pcAdvanceNormally : Instruction → Bool
  | .Jump _ => false
  | .JumpWithOffset _ => false
  | .CallSubroutine _ => false
  | .GetKey _ => false
  | .Return => false
  | _ => true

/-- Whether a skip instruction's condition holds in state `h` — the
exact conditions of the `Skip`/`SkipReg`/`SkipKeyPress` arms of
`execute_instruction`; `false` for every non-skip instruction. -/
def skipTaken (h : Hardware) : Instruction → Bool
  | .Skip sif reg value =>
    let eq := h.cpu.register_val reg = value
    decide ((sif = SkipIf.Eq ∧ eq) ∨ (sif = SkipIf.NotEq ∧ ¬eq))
  | .SkipReg sif regx regy =>
    let eq := h.cpu.register_val regx = h.cpu.register_val regy
    decide ((sif = SkipIf.Eq ∧ eq) ∨ (sif = SkipIf.NotEq ∧ ¬eq))
  | .SkipKeyPress sif reg =>
    let pressed := h.key_state (h.cpu.register_val reg)
    decide ((sif = SkipIf.Eq ∧ pressed) ∨ (sif = SkipIf.NotEq ∧ ¬pressed))
  | _ => false

/-- Hardware with the index register at 4096 (out of memory range). -/
def hwIdx4096 : Hardware :=
  { hw0 .Cosmac with cpu := { cpu0 with index_r := 4096 } }

/-- Memory whose byte 0 is the one-row sprite `0x80` (a single pixel). -/
def mem0x80 : Nat → Nat := fun a => if a = 0 then 0x80 else 0

/-- An all-on screen. -/
def screenOn : Screen := { pixels := fun _ => true }

/-- Observer: draw the same sprite twice and report the final VF. -/
def drawTwiceVF (mem : Nat → Nat) (idx vx vy n : Nat) (s : Screen) : Option Nat :=
  (drawCore mem idx vx vy n s).bind fun p =>
    (drawCore mem idx vx vy n p.1).map Prod.snd

end Chip8Emu

namespace Chip8Emu

/-! ## Theorems -/

/-- **C10.** The legacy synchronous interpreter's `Chip8::execute_reg_op`
(`chip8.rs`) and the actor-based `Hardware::execute_reg_op`
(`hardware.rs`) compute identical final CPU states — in particular
identical register files including VF — for every operation, every pair
of register indices, and every register state, under the same variant. -/
theorem chip8_hardware_reg_op_equiv (version : Chip8Version)
    (op : RegOperation) (regx regy : Nat) (c : CPU) :
    chip8ExecuteRegOp version op regx regy c =
      hardwareExecuteRegOp version op regx regy c := by
  cases op <;> rfl

/-- **C4 (amended).** For ADD, SUB and SUBN the VF write happens after the
Vx write, so with destination `X = F` the flag value is the final VF; for
SHR and SHL the flag is written *before* the shifted result, so with
`X = F` the final VF is the shifted value, not the flag. -/
theorem vf_write_order (version : Chip8Version) (y : Nat) (c : CPU) :
    ((hardwareExecuteRegOp version .Add 15 y c).register_val 15 =
      if 256 ≤ c.register_val 15 + c.register_val y then 1 else 0) ∧
    ((hardwareExecuteRegOp version .Sub 15 y c).register_val 15 =
      if c.register_val y < c.register_val 15 then 1 else 0) ∧
    ((hardwareExecuteRegOp version .SubInv 15 y c).register_val 15 =
      if c.register_val 15 < c.register_val y then 1 else 0) ∧
    ((hardwareExecuteRegOp version .ShiftRight 15 y c).register_val 15 =
      (if version = .Cosmac then c.register_val y else c.register_val 15) >>> 1) ∧
    ((hardwareExecuteRegOp version .ShiftLeft 15 y c).register_val 15 =
      ((if version = .Cosmac then c.register_val y else c.register_val 15) <<< 1) % 256) := by
  refine ⟨?_, ?_, ?_, ?_, ?_⟩ <;>
    cases version <;>
      simp [hardwareExecuteRegOp, CPU.register_set, CPU.register_val]

/-- **C4 (counterexample).** On CHIP-48, `SHR` with destination `VF`
holding 2: the pre-shift value has bit 0 equal to 0 (the flag), yet the
final VF is 1 (the shifted result) — the VF write did not happen after
the Vx write for the shift. -/
theorem vf_write_order_cex :
    (hardwareExecuteRegOp .Chip48 .ShiftRight 15 0 cpuVF2).register_val 15 = 1 ∧
    cpuVF2.register_val 15 &&& 1 = 0 := by
  constructor <;> rfl

/-- **C5 (amended).** `SHR` (8XY6) on COSMAC first copies `Vy` into `Vx`
and shifts that value, on CHIP-48/SUPER-CHIP it shifts `Vx` itself; the
flag written is bit 0 of the pre-shift value, and it survives in VF
exactly when `X ≠ F` (when `X = F` the later Vx write overwrites it with
the shifted value).  `SHL` (8XYE) is analogous with bit 7.  The quirk
scenario: `V0=0x00`, `V1=0xFF`, opcode `8016` gives `V0=0x7F, V1=0xFF,
VF=1` on COSMAC and `V0=0x00, V1=0xFF, VF=0` on CHIP-48/SUPER-CHIP. -/
theorem shift_quirk (version : Chip8Version) (x y : Nat) (c : CPU) :
    ((hardwareExecuteRegOp version .ShiftRight x y c).register_val x =
      (if version = .Cosmac then c.register_val y else c.register_val x) >>> 1) ∧
    ((hardwareExecuteRegOp version .ShiftRight x y c).register_val 15 =
      (if x = 15 then
        (if version = .Cosmac then c.register_val y else c.register_val x) >>> 1
       else
        (if version = .Cosmac then c.register_val y else c.register_val x) &&& 1)) ∧
    ((hardwareExecuteRegOp version .ShiftLeft x y c).register_val x =
      ((if version = .Cosmac then c.register_val y else c.register_val x) <<< 1) % 256) ∧
    ((hardwareExecuteRegOp version .ShiftLeft x y c).register_val 15 =
      (if x = 15 then
        ((if version = .Cosmac then c.register_val y else c.register_val x) <<< 1) % 256
       else
        ((if version = .Cosmac then c.register_val y else c.register_val x) &&& 0x80) >>> 7)) ∧
    (Decoder.decode 0x8016 = some (.RegOp .ShiftRight 0 1)) ∧
    ((hardwareExecuteRegOp .Cosmac .ShiftRight 0 1 cpuShiftQuirk).register_val 0 = 0x7F) ∧
    ((hardwareExecuteRegOp .Cosmac .ShiftRight 0 1 cpuShiftQuirk).register_val 1 = 0xFF) ∧
    ((hardwareExecuteRegOp .Cosmac .ShiftRight 0 1 cpuShiftQuirk).register_val 15 = 1) ∧
    ((hardwareExecuteRegOp .Chip48 .ShiftRight 0 1 cpuShiftQuirk).register_val 0 = 0x00) ∧
    ((hardwareExecuteRegOp .Chip48 .ShiftRight 0 1 cpuShiftQuirk).register_val 1 = 0xFF) ∧
    ((hardwareExecuteRegOp .Chip48 .ShiftRight 0 1 cpuShiftQuirk).register_val 15 = 0) ∧
    ((hardwareExecuteRegOp .SuperChip .ShiftRight 0 1 cpuShiftQuirk).register_val 0 = 0x00) ∧
    ((hardwareExecuteRegOp .SuperChip .ShiftRight 0 1 cpuShiftQuirk).register_val 15 = 0) := by
  refine ⟨?_, ?_, ?_, ?_, by rfl, by rfl, by rfl, by rfl, by rfl, by rfl, by rfl, by rfl, by rfl⟩ <;>
    cases version <;>
      rcases eq_or_ne x 15 with hx | hx <;>
        first
        | (subst hx
           simp [hardwareExecuteRegOp, CPU.register_set, CPU.register_val])
        | simp [hardwareExecuteRegOp, CPU.register_set, CPU.register_val, hx,
            Function.update_noteq (Ne.symm hx)]

/-- **C6 (amended).** `JUMP_OFFSET NNN` targets `NNN + V0` on COSMAC and
`NNN + Vx` (X the high nibble of NNN) on CHIP-48/SUPER-CHIP; when the
target fits in 12 bits the jump is taken, otherwise the
`Address::new(..).unwrap()` fails and execution is a fatal error.  The
quirk scenario: `V0=0x10`, `V3=0x20`, opcode `B320` gives `PC=0x330` on
COSMAC and `PC=0x340` on CHIP-48/SUPER-CHIP. -/
theorem jump_offset_quirk (h : Hardware) (nnn rand : Nat) (hn : nnn < 4096)
    (hreg : ∀ i, h.cpu.register_val i < 256) :
    (Hardware.execute_instruction h (.JumpWithOffset nnn) rand =
      (if nnn + (if h.version = .Cosmac then h.cpu.register_val 0
                 else h.cpu.register_val ((nnn >>> 8) &&& 0xF)) < 4096
       then some (h.withCpu (h.cpu.jump_to
         (nnn + (if h.version = .Cosmac then h.cpu.register_val 0
                 else h.cpu.register_val ((nnn >>> 8) &&& 0xF)))))
       else none)) ∧
    (Decoder.decode 0xB320 = some (.JumpWithOffset 0x320)) ∧
    ((Hardware.execute_instruction (hwJumpQuirk .Cosmac) (.JumpWithOffset 0x320) 0).map
      (fun h' => h'.cpu.pc_r) = some 0x330) ∧
    ((Hardware.execute_instruction (hwJumpQuirk .Chip48) (.JumpWithOffset 0x320) 0).map
      (fun h' => h'.cpu.pc_r) = some 0x340) ∧
    ((Hardware.execute_instruction (hwJumpQuirk .SuperChip) (.JumpWithOffset 0x320) 0).map
      (fun h' => h'.cpu.pc_r) = some 0x340) := by
  refine ⟨?_, by rfl, by rfl, by rfl, by rfl⟩
  have hv : (if h.version = .Cosmac then h.cpu.register_val 0
             else h.cpu.register_val ((nnn >>> 8) &&& 0xF)) < 256 := by
    split <;> exact hreg _
  set v := (if h.version = .Cosmac then h.cpu.register_val 0
            else h.cpu.register_val ((nnn >>> 8) &&& 0xF)) with hv_def
  have hmod : (nnn + v) % 65536 = nnn + v := Nat.mod_eq_of_lt (by omega)
  have hand : (nnn + v) &&& 0x0FFF = (nnn + v) % 4096 := by
    simpa using Nat.and_pow_two_sub_one_eq_mod (nnn + v) 12
  simp only [Hardware.execute_instruction]
  rcases hV : h.version with _ | _ | _ <;>
    simp only [hV, reduceCtorEq, if_true, if_false, reduceIte] <;>
    rw [hV] at hv_def <;>
    simp only [if_true, reduceIte, reduceCtorEq, if_false] at hv_def <;>
    rw [← hv_def, hmod, hand] <;>
    rcases Nat.lt_or_ge (nnn + v) 4096 with hlt | hge
  all_goals
    first
    | (rw [if_pos (Nat.mod_eq_of_lt hlt), if_pos hlt])
    | (have hne : (nnn + v) % 4096 ≠ nnn + v := by
         have := Nat.mod_lt (nnn + v) (show 0 < 4096 by norm_num)
         omega
       rw [if_neg hne, if_neg (by omega)])

/-- **C6 (witness).** The amended jump-offset theorem applied to the
COSMAC quirk state: `B320` with `V0 = 0x10` lands at `PC = 0x330`. -/
theorem jump_offset_quirk_witness :
    (Hardware.execute_instruction (hwJumpQuirk .Cosmac) (.JumpWithOffset 0x320) 0).map
      (fun h' => h'.cpu.pc_r) = some 0x330 :=
  (jump_offset_quirk (hwJumpQuirk .Cosmac) 0x320 0 (by norm_num)
    (fun i => by
      simp only [hwJumpQuirk, hw0, cpu0, CPU.register_val]
      split_ifs <;> norm_num)).2.2.1

/-- **C6 (counterexample).** On COSMAC with `V0 = 0x10`, `JUMP_OFFSET`
with `NNN = 0xFFF` does not set PC to `NNN + V0 = 0x100F`: the 12-bit
address validation fails and execution panics (`none`). -/
theorem jump_offset_quirk_cex :
    Hardware.execute_instruction (hwJumpQuirk .Cosmac) (.JumpWithOffset 0xFFF) 0 = none := by
  rfl

/-- **C8.** With the key-wait latch armed on `Vx` (as `GET_KEY` arms it
without advancing PC), a key event whose edge matches the variant's
required edge (release on COSMAC, press otherwise) deposits the key into
`Vx`, clears the latch and advances PC by 2; a mismatched edge leaves the
hardware state exactly unchanged (latch still armed). -/
theorem key_wait_latch (h : Hardware) (reg key : Nat) (kind : Chip8KeyEventKind)
    (hw : h.cpu.waiting_for_key = some reg) :
    ((kind = (if h.version = .Cosmac then Chip8KeyEventKind.Release
              else Chip8KeyEventKind.Press)) →
      Hardware.handle_key_when_waiting h key kind =
        (h.withCpu
          { h.cpu with
            gen_r := Function.update h.cpu.gen_r reg key
            waiting_for_key := none
            pc_r := (h.cpu.pc_r + 2) % 65536 }, true)) ∧
    ((kind ≠ (if h.version = .Cosmac then Chip8KeyEventKind.Release
              else Chip8KeyEventKind.Press)) →
      Hardware.handle_key_when_waiting h key kind = (h, false)) ∧
    (∀ r rand : Nat, Hardware.execute_instruction h (.GetKey r) rand =
      some (h.withCpu { h.cpu with waiting_for_key := some r })) := by
  refine ⟨?_, ?_, fun r rand => rfl⟩
  · intro hk
    simp only [Hardware.handle_key_when_waiting, CPU.stop_waiting_for_key, hw, hk, if_pos rfl]
    rfl
  · intro hk
    simp only [Hardware.handle_key_when_waiting, CPU.stop_waiting_for_key, hw]
    rw [if_neg hk]
    have hcpu : { h.cpu with waiting_for_key := some reg } = h.cpu := by rw [← hw]
    simp only [CPU.start_waiting_for_key, Hardware.withCpu, hcpu]

/-- **C8 (witness).** The latch of `hwWaiting` (armed on `V3`, CHIP-48)
consumes a press of key 5: `V3 ← 5`, latch cleared, `PC` advanced from
`0x200` to `0x202`. -/
theorem key_wait_latch_witness :
    Hardware.handle_key_when_waiting hwWaiting 5 .Press =
      (hwWaiting.withCpu
        { hwWaiting.cpu with
          gen_r := Function.update hwWaiting.cpu.gen_r 3 5
          waiting_for_key := none
          pc_r := 0x202 }, true) :=
  (key_wait_latch hwWaiting 3 5 .Press rfl).1 rfl

/-- **C3 (amended).** Executing `RETURN` with an empty stack is a fatal
error (`pop` fails); `CALL`, by contrast, never fails: the stack is an
unbounded `Vec` with no capacity check, each `CALL` pushes one return
address, and the depth can grow past 16. -/
theorem stack_discipline (h : Hardware) (rand : Nat)
    (hempty : h.cpu.stack = []) :
    (Hardware.execute_instruction h .Return rand = none) ∧
    (∀ (h' : Hardware) (a r : Nat),
      Hardware.execute_instruction h' (.CallSubroutine a) r =
        some (h'.withCpu ((h'.cpu.push_stack h'.cpu.pc_r).jump_to a))) ∧
    (∀ (h' : Hardware) (a r : Nat),
      (Hardware.execute_instruction h' (.CallSubroutine a) r).map
        (fun h'' => h''.cpu.stack.length) = some (h'.cpu.stack.length + 1)) := by
  refine ⟨?_, fun h' a r => rfl, fun h' a r => rfl⟩
  simp only [Hardware.execute_instruction, CPU.pop_stack, hempty]

/-- **C3 (witness).** `RETURN` on the freshly constructed (empty-stack)
hardware is fatal. -/
theorem stack_discipline_witness :
    Hardware.execute_instruction (hw0 .Cosmac) .Return 0 = none :=
  (stack_discipline (hw0 .Cosmac) 0 rfl).1

/-- **C3 (counterexample).** From a state whose stack already holds 16
return addresses, `CALL` is not a fatal error: it succeeds and leaves the
stack 17 deep, so there is no cap of 16 (or of any size). -/
theorem stack_discipline_cex :
    (Hardware.execute_instruction hwStack16 (.CallSubroutine 0x300) 0).map
      (fun h' => h'.cpu.stack.length) = some 17 := by
  rfl

/-- The register-store loop succeeds exactly when every address it
touches is in memory range. -/
theorem store_registers_aux_isSome (fuel : Nat) : ∀ (i : Nat) (c : CPU),
    ((CPU.store_registers_aux fuel i c).isSome = true ↔
      ∀ j, j < fuel → (c.index_r + (i + j)) % 65536 < 4096) := by
  induction fuel with
  | zero => intro i c; simp [CPU.store_registers_aux]
  | succ fuel ih =>
    intro i c
    simp only [CPU.store_registers_aux, CPU.store_in_addr, CPU.MEMORY_SIZE]
    split_ifs with h0
    · rw [ih]
      constructor
      · intro hall j hj
        rcases Nat.eq_zero_or_pos j with rfl | hpos
        · simpa using h0
        · have := hall (j - 1) (by omega)
          have hrw : i + 1 + (j - 1) = i + j := by omega
          rwa [hrw] at this
      · intro hall j hj
        have := hall (j + 1) (by omega)
        have hrw : i + (j + 1) = i + 1 + j := by omega
        rwa [hrw] at this
    · simp only [Option.isSome_none, Bool.false_eq_true, false_iff]
      intro hall
      exact h0 (by simpa using hall 0 (by omega))

/-- The register-load loop succeeds exactly when every address it
touches is in memory range. -/
theorem load_registers_aux_isSome (fuel : Nat) : ∀ (i : Nat) (c : CPU),
    ((CPU.load_registers_aux fuel i c).isSome = true ↔
      ∀ j, j < fuel → (c.index_r + (i + j)) % 65536 < 4096) := by
  induction fuel with
  | zero => intro i c; simp [CPU.load_registers_aux]
  | succ fuel ih =>
    intro i c
    simp only [CPU.load_registers_aux, CPU.load_from_addr, CPU.MEMORY_SIZE]
    split_ifs with h0
    · rw [ih]
      constructor
      · intro hall j hj
        rcases Nat.eq_zero_or_pos j with rfl | hpos
        · simpa using h0
        · have := hall (j - 1) (by omega)
          have hrw : i + 1 + (j - 1) = i + j := by omega
          rwa [hrw] at this
      · intro hall j hj
        have := hall (j + 1) (by omega)
        have hrw : i + (j + 1) = i + 1 + j := by omega
        rwa [hrw] at this
    · simp only [Option.isSome_none, Bool.false_eq_true, false_iff]
      intro hall
      exact h0 (by simpa using hall 0 (by omega))

/-- Bounded-range simplification: for a `u16` index and at most 16
registers, the loop's success condition is `I + x < 4096`. -/
theorem range_condition_iff (idx x : Nat) (hidx : idx < 65536) (hx : x < 16) :
    (∀ j, j < x + 1 → (idx + j) % 65536 < 4096) ↔ idx + x < 4096 := by
  constructor
  · intro hall
    have h0 := hall 0 (by omega)
    rw [Nat.mod_eq_of_lt (by omega)] at h0
    have hx' := hall x (by omega)
    rw [Nat.mod_eq_of_lt (by omega)] at hx'
    exact hx'
  · intro hlt j hj
    rw [Nat.mod_eq_of_lt (by omega)]
    omega

/-- `store_registers` succeeds exactly when `I + x < 4096` (for a `u16`
index and a valid register count). -/
theorem store_registers_isSome (c : CPU) (x : Nat) (hidx : c.index_r < 65536)
    (hx : x < 16) :
    ((c.store_registers x).isSome = true ↔ c.index_r + x < 4096) := by
  rw [CPU.store_registers, store_registers_aux_isSome]
  simp only [Nat.zero_add]
  exact range_condition_iff c.index_r x hidx hx

/-- `load_registers` succeeds exactly when `I + x < 4096`. -/
theorem load_registers_isSome (c : CPU) (x : Nat) (hidx : c.index_r < 65536)
    (hx : x < 16) :
    ((c.load_registers x).isSome = true ↔ c.index_r + x < 4096) := by
  rw [CPU.load_registers, load_registers_aux_isSome]
  simp only [Nat.zero_add]
  exact range_condition_iff c.index_r x hidx hx

/-- The COSMAC store variant fails exactly when the plain one does. -/
theorem store_registers_cosmac_isSome (c : CPU) (x : Nat) :
    (c.store_registers_cosmac x).isSome = (c.store_registers x).isSome := by
  simp [CPU.store_registers_cosmac]

/-- The COSMAC load variant fails exactly when the plain one does. -/
theorem load_registers_cosmac_isSome (c : CPU) (x : Nat) :
    (c.load_registers_cosmac x).isSome = (c.load_registers x).isSome := by
  simp [CPU.load_registers_cosmac]

/-- BCD succeeds exactly when `I + 2 < 4096` (for a `u16` index). -/
theorem bcd_isSome (c : CPU) (reg : Nat) (hidx : c.index_r < 65536) :
    ((c.binary_decimal_conv reg).isSome = true ↔ c.index_r + 2 < 4096) := by
  by_cases h0 : c.index_r < 4096
  · have h1 : c.index_r + 1 < 65536 := by omega
    have h2 : c.index_r + 2 < 65536 := by omega
    simp only [CPU.binary_decimal_conv, CPU.store_in_addr, CPU.MEMORY_SIZE, if_pos h0,
      Option.some_bind]
    rw [Nat.mod_eq_of_lt h1]
    split_ifs with hA
    · simp only [Option.some_bind]
      rw [Nat.mod_eq_of_lt h2]
      split_ifs with hB <;> simp <;> omega
    · simp
      omega
  · simp only [CPU.binary_decimal_conv, CPU.store_in_addr, CPU.MEMORY_SIZE, if_neg h0,
      Option.none_bind]
    simp
    omega

/-- **C1 (amended).** Memory indices derived from PC, I, or a V register
are *not* masked before the access: the raw index is used, the access is
defined exactly when the index is below 4096, and an out-of-range index
is a fatal error.  Concretely: instruction fetch succeeds iff
`PC + 1 < 4096`; BCD succeeds iff `I + 2 < 4096`; STORE/LOAD up to `Vx`
succeed iff `I + x < 4096`; and a DRAW of at least one row with
`I ≥ 4096` is fatal. -/
theorem memory_access_unmasked :
    (∀ c : CPU, (c.fetch_current_instruction).isSome = true ↔ c.pc_r + 1 < 4096) ∧
    (∀ (h : Hardware) (reg rand : Nat), h.cpu.index_r < 65536 →
      ((Hardware.execute_instruction h (.BinaryDecimalConv reg) rand).isSome = true ↔
        h.cpu.index_r + 2 < 4096)) ∧
    (∀ (h : Hardware) (x rand : Nat), h.cpu.index_r < 65536 → x < 16 →
      ((Hardware.execute_instruction h (.StoreAddr x) rand).isSome = true ↔
        h.cpu.index_r + x < 4096)) ∧
    (∀ (h : Hardware) (x rand : Nat), h.cpu.index_r < 65536 → x < 16 →
      ((Hardware.execute_instruction h (.LoadAddr x) rand).isSome = true ↔
        h.cpu.index_r + x < 4096)) ∧
    (∀ (h : Hardware) (rx ry n rand : Nat), n ≠ 0 → 4096 ≤ h.cpu.index_r →
      h.cpu.index_r < 65536 →
      Hardware.execute_instruction h (.Draw rx ry n) rand = none) := by
  refine ⟨?_, ?_, ?_, ?_, ?_⟩
  · intro c
    simp only [CPU.fetch_current_instruction, CPU.load_from_addr, CPU.MEMORY_SIZE]
    split_ifs <;> simp <;> omega
  · intro h reg rand hidx
    simp only [Hardware.execute_instruction]
    rw [show ∀ o : Option CPU, (o.map fun c => Hardware.incPC (h.withCpu c)).isSome = o.isSome
          from fun o => by cases o <;> rfl]
    exact bcd_isSome h.cpu reg hidx
  · intro h x rand hidx hx
    simp only [Hardware.execute_instruction]
    rw [show ∀ o : Option CPU, (o.map fun c => Hardware.incPC (h.withCpu c)).isSome = o.isSome
          from fun o => by cases o <;> rfl]
    split_ifs with hv
    · rw [store_registers_cosmac_isSome]
      exact store_registers_isSome h.cpu x hidx hx
    · exact store_registers_isSome h.cpu x hidx hx
  · intro h x rand hidx hx
    simp only [Hardware.execute_instruction]
    rw [show ∀ o : Option CPU, (o.map fun c => Hardware.incPC (h.withCpu c)).isSome = o.isSome
          from fun o => by cases o <;> rfl]
    split_ifs with hv
    · rw [load_registers_cosmac_isSome]
      exact load_registers_isSome h.cpu x hidx hx
    · exact load_registers_isSome h.cpu x hidx hx
  · intro h rx ry n rand hn h4096 hidx
    rcases n with _ | m
    · exact absurd rfl hn
    · simp only [Hardware.execute_instruction, Hardware.execute_draw, drawCore, drawRows,
        Screen.N_ROWS, Screen.N_COLS, CPU.MEMORY_SIZE]
      rw [if_neg (by omega), if_neg (by omega)]
      rfl

/-- **C1 (witness).** A DRAW of one row with `I = 4096` is fatal. -/
theorem memory_access_unmasked_witness :
    Hardware.execute_instruction hwIdx4096 (.Draw 0 0 1) 0 = none :=
  memory_access_unmasked.2.2.2.2 hwIdx4096 0 0 1 0 (by decide) (by norm_num [hwIdx4096, cpu0])
    (by norm_num [hwIdx4096, cpu0])

/-- **C1 (counterexample).** Instruction fetch with `PC = 4096` (a legal
16-bit PC value) is not a defined access: it panics instead of masking
the index to 12 bits. -/
theorem memory_access_unmasked_cex : CPU.fetch_current_instruction cpuPC4096 = none := by
  rfl

/-- `execute_reg_op` never touches the program counter. -/
theorem hardwareExecuteRegOp_pc (v : Chip8Version) (op : RegOperation)
    (x y : Nat) (c : CPU) : (hardwareExecuteRegOp v op x y c).pc_r = c.pc_r := by
  cases op <;> first | rfl | (simp only [hardwareExecuteRegOp]; split <;> rfl)

/-- `execute_draw` never touches the program counter. -/
theorem execute_draw_pc (h : Hardware) (rx ry n : Nat) (h' : Hardware)
    (hd : h.execute_draw rx ry n = some h') : h'.cpu.pc_r = h.cpu.pc_r := by
  simp only [Hardware.execute_draw] at hd
  rcases hc : drawCore h.cpu.memory h.cpu.index_r (h.cpu.register_val rx)
      (h.cpu.register_val ry) n h.screen with _ | p
  · rw [hc] at hd; cases hd
  · rw [hc] at hd
    cases hd
    rfl

/-- `store_in_addr` never touches the program counter or index. -/
theorem store_in_addr_fields (c : CPU) (a v : Nat) (c' : CPU)
    (hs : c.store_in_addr a v = some c') :
    c'.pc_r = c.pc_r ∧ c'.index_r = c.index_r := by
  simp only [CPU.store_in_addr] at hs
  split_ifs at hs
  cases hs
  exact ⟨rfl, rfl⟩

/-- The register-load loop never touches the program counter. -/
theorem load_registers_aux_pc (fuel : Nat) : ∀ (i : Nat) (c c' : CPU),
    CPU.load_registers_aux fuel i c = some c' → c'.pc_r = c.pc_r := by
  induction fuel with
  | zero =>
    intro i c c' hl
    simp only [CPU.load_registers_aux] at hl
    cases hl; rfl
  | succ fuel ih =>
    intro i c c' hl
    simp only [CPU.load_registers_aux] at hl
    rcases hload : CPU.load_from_addr c ((c.index_r + i) % 65536) with _ | v
    · rw [hload] at hl; cases hl
    · rw [hload] at hl
      exact ih (i + 1) (c.register_set i v) c' hl

/-- The register-store loop never touches the program counter. -/
theorem store_registers_aux_pc (fuel : Nat) : ∀ (i : Nat) (c c' : CPU),
    CPU.store_registers_aux fuel i c = some c' → c'.pc_r = c.pc_r := by
  induction fuel with
  | zero =>
    intro i c c' hs
    simp only [CPU.store_registers_aux] at hs
    cases hs; rfl
  | succ fuel ih =>
    intro i c c' hs
    simp only [CPU.store_registers_aux] at hs
    rcases hst : CPU.store_in_addr c ((c.index_r + i) % 65536) (c.register_val i) with _ | c1
    · rw [hst] at hs; cases hs
    · rw [hst] at hs
      have h1 := (store_in_addr_fields c _ _ c1 hst).1
      rw [ih (i + 1) c1 c' hs, h1]

/-- `binary_decimal_conv` never touches the program counter. -/
theorem bcd_pc (c : CPU) (reg : Nat) (c' : CPU)
    (hb : c.binary_decimal_conv reg = some c') : c'.pc_r = c.pc_r := by
  simp only [CPU.binary_decimal_conv] at hb
  rcases h1 : CPU.store_in_addr c c.index_r (c.register_val reg / 100) with _ | c1
  · rw [h1] at hb; cases hb
  · rw [h1] at hb
    simp only [Option.some_bind] at hb
    rcases h2 : CPU.store_in_addr c1 ((c1.index_r + 1) % 65536)
        (c.register_val reg % 100 / 10) with _ | c2
    · rw [h2] at hb; cases hb
    · rw [h2] at hb
      simp only [Option.some_bind] at hb
      have p1 := (store_in_addr_fields _ _ _ _ h1).1
      have p2 := (store_in_addr_fields _ _ _ _ h2).1
      have p3 := (store_in_addr_fields _ _ _ _ hb).1
      rw [p3, p2, p1]

/-- **C2 (amended).** For every decoded instruction except `JUMP`,
`CALL`, `JUMP_OFFSET`, `GET_KEY` and `RETURN`, and every starting
hardware state, a completed `execute()` leaves PC exactly 2 greater than
before (mod 2^16) — except that a skip instruction whose condition holds
leaves PC exactly 4 greater (its own increment plus the trailing one),
and PC is exactly 2 greater whenever the condition does not hold.
`RETURN` is excluded from the first part because it first sets PC from
the stack: a completed `RETURN` leaves PC at the popped address plus 2
(mod 2^16). -/
theorem pc_advance :
    (∀ (h : Hardware) (inst : Instruction) (rand : Nat) (h' : Hardware),
      pcAdvanceNormally inst = true →
      Hardware.execute_instruction h inst rand = some h' →
      h'.cpu.pc_r = (h.cpu.pc_r + (if skipTaken h inst = true then 4 else 2)) % 65536) ∧
    (∀ (h : Hardware) (rand ret : Nat) (rest : List Nat) (h' : Hardware),
      h.cpu.stack = ret :: rest →
      Hardware.execute_instruction h .Return rand = some h' →
      h'.cpu.pc_r = (ret + 2) % 65536) := by
  constructor
  · intro h inst rand h' hnorm hex
    cases inst with
    | Jump addr => simp [pcAdvanceNormally] at hnorm
    | JumpWithOffset addr => simp [pcAdvanceNormally] at hnorm
    | CallSubroutine addr => simp [pcAdvanceNormally] at hnorm
    | GetKey reg => simp [pcAdvanceNormally] at hnorm
    | Return => simp [pcAdvanceNormally] at hnorm
    | Invalid => simp [Hardware.execute_instruction] at hex
    | ClearScreen =>
      simp only [Hardware.execute_instruction, Option.some.injEq] at hex
      subst hex; rfl
    | ExecuteMachineLangRoutine =>
      simp only [Hardware.execute_instruction, Option.some.injEq] at hex
      subst hex; rfl
    | RegOp op rx ry =>
      simp only [Hardware.execute_instruction, Option.some.injEq] at hex
      subst hex
      simp only [skipTaken, Hardware.incPC, Hardware.withCpu, CPU.increment_pc,
        Bool.false_eq_true, if_false]
      rw [hardwareExecuteRegOp_pc]
    | SetRegImmediate reg v =>
      simp only [Hardware.execute_instruction, Option.some.injEq] at hex
      subst hex; rfl
    | AddRegImmediate reg v =>
      simp only [Hardware.execute_instruction, Option.some.injEq] at hex
      subst hex; rfl
    | SetIndex addr =>
      simp only [Hardware.execute_instruction, Option.some.injEq] at hex
      subst hex; rfl
    | AddIndex reg =>
      simp only [Hardware.execute_instruction, Option.some.injEq] at hex
      subst hex; rfl
    | SetFont reg =>
      simp only [Hardware.execute_instruction, Option.some.injEq] at hex
      subst hex; rfl
    | Random reg v =>
      simp only [Hardware.execute_instruction, Option.some.injEq] at hex
      subst hex; rfl
    | SetSoundTimer reg =>
      simp only [Hardware.execute_instruction, Option.some.injEq] at hex
      subst hex; rfl
    | SetDelayTimer reg =>
      simp only [Hardware.execute_instruction, Option.some.injEq] at hex
      subst hex; rfl
    | GetDelayTimer reg =>
      simp only [Hardware.execute_instruction, Option.some.injEq] at hex
      subst hex; rfl
    | Draw rx ry n =>
      simp only [Hardware.execute_instruction] at hex
      rcases hd : h.execute_draw rx ry n with _ | d
      · rw [hd] at hex; cases hex
      · rw [hd] at hex
        simp only [Option.map_some', Option.some.injEq] at hex
        subst hex
        simp only [skipTaken, Hardware.incPC, Hardware.withCpu, CPU.increment_pc,
          Bool.false_eq_true, if_false]
        rw [execute_draw_pc h rx ry n d hd]
    | LoadAddr reg =>
      simp only [Hardware.execute_instruction] at hex
      rcases hl : (if h.version = Chip8Version.Cosmac then h.cpu.load_registers_cosmac reg
          else h.cpu.load_registers reg) with _ | c
      · rw [hl] at hex; cases hex
      · rw [hl] at hex
        simp only [Option.map_some', Option.some.injEq] at hex
        subst hex
        simp only [skipTaken, Hardware.incPC, Hardware.withCpu, CPU.increment_pc,
          Bool.false_eq_true, if_false]
        have hpc : c.pc_r = h.cpu.pc_r := by
          split_ifs at hl with hv
          · simp only [CPU.load_registers_cosmac, CPU.load_registers] at hl
            rcases hl2 : CPU.load_registers_aux (reg + 1) 0 h.cpu with _ | c2
            · rw [hl2] at hl; cases hl
            · rw [hl2] at hl
              simp only [Option.map_some', Option.some.injEq] at hl
              subst hl
              exact load_registers_aux_pc (reg + 1) 0 h.cpu c2 hl2
          · exact load_registers_aux_pc (reg + 1) 0 h.cpu c hl
        rw [hpc]
    | StoreAddr reg =>
      simp only [Hardware.execute_instruction] at hex
      rcases hl : (if h.version = Chip8Version.Cosmac then h.cpu.store_registers_cosmac reg
          else h.cpu.store_registers reg) with _ | c
      · rw [hl] at hex; cases hex
      · rw [hl] at hex
        simp only [Option.map_some', Option.some.injEq] at hex
        subst hex
        simp only [skipTaken, Hardware.incPC, Hardware.withCpu, CPU.increment_pc,
          Bool.false_eq_true, if_false]
        have hpc : c.pc_r = h.cpu.pc_r := by
          split_ifs at hl with hv
          · simp only [CPU.store_registers_cosmac, CPU.store_registers] at hl
            rcases hl2 : CPU.store_registers_aux (reg + 1) 0 h.cpu with _ | c2
            · rw [hl2] at hl; cases hl
            · rw [hl2] at hl
              simp only [Option.map_some', Option.some.injEq] at hl
              subst hl
              exact store_registers_aux_pc (reg + 1) 0 h.cpu c2 hl2
          · exact store_registers_aux_pc (reg + 1) 0 h.cpu c hl
        rw [hpc]
    | BinaryDecimalConv reg =>
      simp only [Hardware.execute_instruction] at hex
      rcases hb : h.cpu.binary_decimal_conv reg with _ | c
      · rw [hb] at hex; cases hex
      · rw [hb] at hex
        simp only [Option.map_some', Option.some.injEq] at hex
        subst hex
        simp only [skipTaken, Hardware.incPC, Hardware.withCpu, CPU.increment_pc,
          Bool.false_eq_true, if_false]
        rw [bcd_pc h.cpu reg c hb]
    | Skip sif reg v =>
      simp only [Hardware.execute_instruction] at hex
      split_ifs at hex with hcond <;>
        simp only [Option.some.injEq] at hex <;> subst hex <;>
          simp only [skipTaken, Hardware.incPC, Hardware.withCpu, CPU.increment_pc]
      · rw [if_pos (decide_eq_true hcond)]
        omega
      · rw [if_neg (fun hd => hcond (of_decide_eq_true hd))]
    | SkipReg sif rx ry =>
      simp only [Hardware.execute_instruction] at hex
      split_ifs at hex with hcond <;>
        simp only [Option.some.injEq] at hex <;> subst hex <;>
          simp only [skipTaken, Hardware.incPC, Hardware.withCpu, CPU.increment_pc]
      · rw [if_pos (decide_eq_true hcond)]
        omega
      · rw [if_neg (fun hd => hcond (of_decide_eq_true hd))]
    | SkipKeyPress sif reg =>
      simp only [Hardware.execute_instruction] at hex
      split_ifs at hex with hcond <;>
        simp only [Option.some.injEq] at hex <;> subst hex <;>
          simp only [skipTaken, Hardware.incPC, Hardware.withCpu, CPU.increment_pc]
      · rw [if_pos (decide_eq_true hcond)]
        omega
      · rw [if_neg (fun hd => hcond (of_decide_eq_true hd))]
  · intro h rand ret rest h' hstack hex
    simp only [Hardware.execute_instruction, CPU.pop_stack, hstack] at hex
    split_ifs at hex with hret
    simp only [Option.some.injEq] at hex
    subst hex
    rfl

/-- **C2 (witness).** `CLS` on the fresh COSMAC hardware advances PC
from 0 to 2 (no skip is taken), and `RETURN` on the 16-deep stack whose
top is `0x200` lands at `PC = 0x202`. -/
theorem pc_advance_witness :
    (∃ h', Hardware.execute_instruction (hw0 .Cosmac) .ClearScreen 0 = some h' ∧
      h'.cpu.pc_r = 2) ∧
    (∃ h', Hardware.execute_instruction hwStack16 .Return 0 = some h' ∧
      h'.cpu.pc_r = 0x202) := by
  constructor
  · refine ⟨_, rfl, ?_⟩
    have hp := pc_advance.1 (hw0 .Cosmac) .ClearScreen 0 _ rfl rfl
    simpa [skipTaken] using hp
  · refine ⟨_, rfl, ?_⟩
    have hp := pc_advance.2 hwStack16 0 0x200 (List.replicate 15 0x200) _ rfl rfl
    simpa using hp

/-- **C2 (counterexample).** `SKIP V0 == 0` with `V0 = 0` from
`PC = 0x200` leaves PC at `0x204`, not `0x202`: a taken skip advances PC
by 4, so not every non-JUMP/CALL/JUMP_OFFSET/GET_KEY instruction leaves
PC exactly 2 greater. -/
theorem pc_advance_cex :
    (Hardware.execute_instruction hwSkip (.Skip .Eq 0 0) 0).map
      (fun h' => h'.cpu.pc_r) = some 0x204 ∧ hwSkip.cpu.pc_r = 0x200 :=
  ⟨rfl, rfl⟩

/-- Characterisation of the inner bit loop of `execute_draw`: given the
loop invariant `fuel + bitPos = 8` and an in-range row, it always
succeeds, flips exactly the `rowHit` pixels, and sets the flag to 1
exactly when `rowColl` holds. -/
theorem drawBits_spec (startX y d : Nat) (hy : y < 32) :
    ∀ fuel bitPos, fuel + bitPos = 8 → ∀ (s : Screen) (vf : Nat),
      drawBits startX y d fuel bitPos s vf =
        some (⟨fun i => if rowHit startX y d bitPos i then !s.pixels i else s.pixels i⟩,
              if rowColl startX y d bitPos s then 1 else vf) := by
  intro fuel
  induction fuel with
  | zero =>
    intro bitPos h8 s vf
    have h1 : ∀ i, rowHit startX y d bitPos i = false :=
      fun i => rowHit_end _ _ _ _ _ (by omega)
    have h2 : rowColl startX y d bitPos s = false := rowColl_end _ _ _ _ _ (by omega)
    simp only [drawBits, h1, h2, Bool.false_eq_true, if_false]
  | succ fuel ih =>
    intro bitPos h8 s vf
    have hb8 : bitPos < 8 := by omega
    by_cases hclip : Screen.N_COLS ≤ startX + bitPos
    · -- clipped: the rest of the row is skipped
      have hstep : drawBits startX y d (fuel + 1) bitPos s vf = some (s, vf) := by
        simp only [drawBits]
        rw [if_pos hclip]
      rw [hstep]
      have hclip' : 64 ≤ startX + bitPos := by simpa [Screen.N_COLS] using hclip
      have h1 : ∀ i, rowHit startX y d bitPos i = false :=
        fun i => rowHit_clip _ _ _ _ _ hclip'
      have h2 : rowColl startX y d bitPos s = false := rowColl_clip _ _ _ _ _ hclip'
      simp only [h1, h2, Bool.false_eq_true, if_false]
    · have hx64 : startX + bitPos < 64 := by
        simp only [Screen.N_COLS, not_le] at hclip
        exact hclip
      by_cases hbit : (d >>> (7 - bitPos)) &&& 1 = 1
      case neg =>
        -- sprite bit clear: nothing drawn at this bit
        have hstep : drawBits startX y d (fuel + 1) bitPos s vf =
            drawBits startX y d fuel (bitPos + 1) s vf := by
          simp only [drawBits]
          rw [if_neg hclip, if_neg hbit]
        rw [hstep, ih (bitPos + 1) (by omega)]
        rw [← rowColl_step startX y d bitPos s (Or.inr (Or.inl hbit))]
        simp only [Option.some.injEq, Prod.mk.injEq, Screen.mk.injEq]
        refine ⟨funext fun i => ?_, trivial⟩
        rw [← rowHit_step startX y d bitPos i (Or.inr (Or.inl hbit))]
      case pos =>
      have hget : Screen.get_pixel s (startX + bitPos) y =
          some (s.pixels (Screen.get_idx (startX + bitPos) y)) := by
        simp only [Screen.get_pixel, Screen.N_COLS, Screen.N_ROWS]
        rw [if_neg (by omega)]
      have hset : ∀ v : Bool, Screen.set_pixel s (startX + bitPos) y v =
          ⟨Function.update s.pixels (Screen.get_idx (startX + bitPos) y) v⟩ := by
        intro v
        simp only [Screen.set_pixel, Screen.N_COLS, Screen.N_ROWS]
        rw [if_neg (by omega)]
      by_cases hp : s.pixels (Screen.get_idx (startX + bitPos) y) = true
      · -- pixel on: turn it off, flag forced to 1
        have hstepT : drawBits startX y d (fuel + 1) bitPos s vf =
            drawBits startX y d fuel (bitPos + 1)
              (s.set_pixel (startX + bitPos) y false) 1 := by
          simp only [drawBits]
          rw [if_neg hclip, if_pos hbit, hget, hp]
          rfl
        rw [hstepT, hset, ih (bitPos + 1) (by omega)]
        have hcoll : rowColl startX y d bitPos s = true :=
          (rowColl_iff _ _ _ _ _).2 ⟨bitPos, hb8, Nat.le_refl _, hx64, hbit, hp⟩
        rw [hcoll]
        simp only [Option.some.injEq, Prod.mk.injEq, Screen.mk.injEq, ite_self, if_true]
        refine ⟨funext fun i => ?_, trivial⟩
        dsimp only
        by_cases hi : i = Screen.get_idx (startX + bitPos) y
        · subst hi
          rw [rowHit_above_at _ _ _ _ hx64, rowHit_at _ _ _ _ hb8 hx64 hbit, hp]
          simp [Function.update_same]
        · rw [Function.update_noteq hi, ← rowHit_step startX y d bitPos i (Or.inl hi)]
      · -- pixel off: turn it on, flag unchanged
        have hp' : s.pixels (Screen.get_idx (startX + bitPos) y) = false :=
          Bool.not_eq_true _ ▸ hp
        have hstepF : drawBits startX y d (fuel + 1) bitPos s vf =
            drawBits startX y d fuel (bitPos + 1)
              (s.set_pixel (startX + bitPos) y true) vf := by
          simp only [drawBits]
          rw [if_neg hclip, if_pos hbit, hget, hp']
          rfl
        rw [hstepF, hset, ih (bitPos + 1) (by omega)]
        have hcollstep : rowColl startX y d bitPos s =
            rowColl startX y d (bitPos + 1) s :=
          rowColl_step _ _ _ _ _ (Or.inl (by rw [hp']; simp))
        rw [rowColl_update _ _ _ _ _ _ hx64, ← hcollstep]
        simp only [Option.some.injEq, Prod.mk.injEq, Screen.mk.injEq]
        refine ⟨funext fun i => ?_, trivial⟩
        dsimp only
        by_cases hi : i = Screen.get_idx (startX + bitPos) y
        · subst hi
          rw [rowHit_above_at _ _ _ _ hx64, rowHit_at _ _ _ _ hb8 hx64 hbit, hp']
          simp [Function.update_same]
        · rw [Function.update_noteq hi, ← rowHit_step startX y d bitPos i (Or.inl hi)]

/-- A row never hits a flat index belonging to a different row. -/
theorem rowHit_other_row (sx y d bitPos x' y' : Nat) (hx' : x' < 64) (hyy : y' ≠ y) :
    rowHit sx y d bitPos (Screen.get_idx x' y') = false := by
  rcases hH : rowHit sx y d bitPos (Screen.get_idx x' y') with _ | _
  · rfl
  · obtain ⟨b, hb8, hbp, hb64, hbit, hidx⟩ := (rowHit_iff sx y d bitPos _).1 hH
    exact absurd ((get_idx_inj hx' hb64).1 hidx).2 hyy

/-- With no rows left nothing is drawn. -/
theorem drawnAt_zero (mem : Nat → Nat) (idx sx sy row i : Nat) :
    drawnAt mem idx sx sy 0 row i = false := rfl

/-- With no rows left nothing collides. -/
theorem collAt_zero (mem : Nat → Nat) (idx sx sy row : Nat) (s : Screen) :
    collAt mem idx sx sy 0 row s = false := rfl

/-- With no rows left all loads are vacuously fine. -/
theorem rowsOk_zero (mem : Nat → Nat) (idx sy row : Nat) :
    rowsOk mem idx sy 0 row = true := rfl

/-- Once the bottom edge is reached nothing is drawn. -/
theorem drawnAt_break (mem : Nat → Nat) (idx sx sy fuel row i : Nat)
    (hy : 32 ≤ sy + row) : drawnAt mem idx sx sy fuel row i = false := by
  rcases hH : drawnAt mem idx sx sy fuel row i with _ | _
  · rfl
  · obtain ⟨r, hr, hy', _⟩ := (drawnAt_iff mem idx sx sy fuel row i).1 hH
    omega

/-- Once the bottom edge is reached nothing collides. -/
theorem collAt_break (mem : Nat → Nat) (idx sx sy fuel row : Nat) (s : Screen)
    (hy : 32 ≤ sy + row) : collAt mem idx sx sy fuel row s = false := by
  rcases hH : collAt mem idx sx sy fuel row s with _ | _
  · rfl
  · obtain ⟨r, hr, hy', _⟩ := (collAt_iff mem idx sx sy fuel row s).1 hH
    omega

/-- Once the bottom edge is reached all loads are vacuously fine. -/
theorem rowsOk_break (mem : Nat → Nat) (idx sy fuel row : Nat)
    (hy : 32 ≤ sy + row) : rowsOk mem idx sy fuel row = true := by
  rw [rowsOk_iff]
  intro r hr hy'
  omega

/-- Peeling the first of the remaining rows off the drawn set. -/
theorem drawnAt_step (mem : Nat → Nat) (idx sx sy fuel row i : Nat)
    (hy : sy + row < 32) :
    drawnAt mem idx sx sy (fuel + 1) row i =
      (rowHit sx (sy + row) (mem ((idx + row) % 65536)) 0 i ||
        drawnAt mem idx sx sy fuel (row + 1) i) := by
  rw [Bool.eq_iff_iff, Bool.or_eq_true, drawnAt_iff, drawnAt_iff]
  constructor
  · rintro ⟨r, hr, hyr, hhit⟩
    rcases Nat.eq_zero_or_pos r with rfl | hpos
    · exact Or.inl (by simpa using hhit)
    · refine Or.inr ⟨r - 1, by omega, by
        have : row + 1 + (r - 1) = row + r := by omega
        rw [this]; exact hyr, ?_⟩
      have : row + 1 + (r - 1) = row + r := by omega
      rw [this]
      exact hhit
  · rintro (hhit | ⟨r, hr, hyr, hhit⟩)
    · exact ⟨0, by omega, by simpa using hy, by simpa using hhit⟩
    · refine ⟨r + 1, by omega, ?_, ?_⟩
      · have : row + (r + 1) = row + 1 + r := by omega
        rw [this]; exact hyr
      · have : row + (r + 1) = row + 1 + r := by omega
        rw [this]; exact hhit

/-- Peeling the first of the remaining rows off the collision set. -/
theorem collAt_step (mem : Nat → Nat) (idx sx sy fuel row : Nat) (s : Screen)
    (hy : sy + row < 32) :
    collAt mem idx sx sy (fuel + 1) row s =
      (rowColl sx (sy + row) (mem ((idx + row) % 65536)) 0 s ||
        collAt mem idx sx sy fuel (row + 1) s) := by
  rw [Bool.eq_iff_iff, Bool.or_eq_true, collAt_iff, collAt_iff]
  constructor
  · rintro ⟨r, hr, hyr, hhit⟩
    rcases Nat.eq_zero_or_pos r with rfl | hpos
    · exact Or.inl (by simpa using hhit)
    · refine Or.inr ⟨r - 1, by omega, by
        have : row + 1 + (r - 1) = row + r := by omega
        rw [this]; exact hyr, ?_⟩
      have : row + 1 + (r - 1) = row + r := by omega
      rw [this]
      exact hhit
  · rintro (hhit | ⟨r, hr, hyr, hhit⟩)
    · exact ⟨0, by omega, by simpa using hy, by simpa using hhit⟩
    · refine ⟨r + 1, by omega, ?_, ?_⟩
      · have : row + (r + 1) = row + 1 + r := by omega
        rw [this]; exact hyr
      · have : row + (r + 1) = row + 1 + r := by omega
        rw [this]; exact hhit

/-- Peeling the first of the remaining rows off the load condition. -/
theorem rowsOk_step (mem : Nat → Nat) (idx sy fuel row : Nat) (hy : sy + row < 32) :
    rowsOk mem idx sy (fuel + 1) row =
      (decide ((idx + row) % 65536 < 4096) && rowsOk mem idx sy fuel (row + 1)) := by
  rw [Bool.eq_iff_iff, Bool.and_eq_true, rowsOk_iff, rowsOk_iff, decide_eq_true_eq]
  constructor
  · intro hall
    refine ⟨by simpa using hall 0 (by omega) (by simpa using hy), ?_⟩
    intro r hr hyr
    have h1 : row + 1 + r = row + (r + 1) := by omega
    rw [h1] at hyr ⊢
    exact hall (r + 1) (by omega) hyr
  · rintro ⟨h0, hall⟩ r hr hyr
    rcases Nat.eq_zero_or_pos r with rfl | hpos
    · simpa using h0
    · have h1 : row + r = row + 1 + (r - 1) := by omega
      rw [h1] at hyr ⊢
      exact hall (r - 1) (by omega) hyr

/-- A pixel hit by the current row is not drawn by the later rows. -/
theorem drawnAt_above (mem : Nat → Nat) (idx sx sy fuel row i : Nat) (d : Nat)
    (hhit : rowHit sx (sy + row) d 0 i = true) :
    drawnAt mem idx sx sy fuel (row + 1) i = false := by
  obtain ⟨b, hb8, _, hb64, _, hidx⟩ := (rowHit_iff sx (sy + row) d 0 i).1 hhit
  rcases hH : drawnAt mem idx sx sy fuel (row + 1) i with _ | _
  · rfl
  · obtain ⟨r, hr, hyr, hhit'⟩ := (drawnAt_iff mem idx sx sy fuel (row + 1) i).1 hH
    rw [hidx] at hhit'
    rw [rowHit_other_row _ _ _ _ _ _ hb64 (by omega)] at hhit'
    cases hhit'

/-- The later rows' collision test ignores the current row's flips. -/
theorem collAt_masked (mem : Nat → Nat) (idx sx sy fuel row : Nat) (y d : Nat)
    (s : Screen) (hy : ∀ r, r < fuel → sy + (row + r) ≠ y) :
    collAt mem idx sx sy fuel row
      ⟨fun i => if rowHit sx y d 0 i then !s.pixels i else s.pixels i⟩ =
      collAt mem idx sx sy fuel row s := by
  have hagree : ∀ r, r < fuel → ∀ x', x' < 64 →
      (⟨fun i => if rowHit sx y d 0 i then !s.pixels i else s.pixels i⟩ : Screen).pixels
        (Screen.get_idx x' (sy + (row + r))) =
        s.pixels (Screen.get_idx x' (sy + (row + r))) := by
    intro r hr x' hx'
    dsimp only
    rw [rowHit_other_row sx y d 0 x' _ hx' (hy r hr)]
    simp
  rw [Bool.eq_iff_iff, collAt_iff, collAt_iff]
  constructor
  · rintro ⟨r, hr, hyr, hhit⟩
    refine ⟨r, hr, hyr, ?_⟩
    rwa [rowColl_congr _ _ _ 0 _ s (fun x' hx' => hagree r hr x' hx')] at hhit
  · rintro ⟨r, hr, hyr, hhit⟩
    refine ⟨r, hr, hyr, ?_⟩
    rw [rowColl_congr _ _ _ 0 _ s (fun x' hx' => hagree r hr x' hx')]
    exact hhit

/-- Characterisation of the row loop of `execute_draw`: it succeeds
exactly when every (unclipped) sprite-byte load is in range, in which
case it flips exactly the `drawnAt` pixels and raises the flag exactly
when `collAt` holds. -/
theorem drawRows_spec (mem : Nat → Nat) (idx startX startY : Nat) :
    ∀ fuel row (s : Screen) (vf : Nat),
      drawRows mem idx startX startY fuel row s vf =
        if rowsOk mem idx startY fuel row = true then
          some (⟨fun i => if drawnAt mem idx startX startY fuel row i then !s.pixels i
                          else s.pixels i⟩,
                if collAt mem idx startX startY fuel row s then 1 else vf)
        else none := by
  intro fuel
  induction fuel with
  | zero =>
    intro row s vf
    rw [if_pos (rowsOk_zero mem idx startY row)]
    simp only [drawRows, drawnAt_zero, collAt_zero, Bool.false_eq_true, if_false]
  | succ fuel ih =>
    intro row s vf
    by_cases hy : Screen.N_ROWS ≤ startY + row
    · have hstep : drawRows mem idx startX startY (fuel + 1) row s vf = some (s, vf) := by
        simp only [drawRows]
        rw [if_pos hy]
      have hy' : 32 ≤ startY + row := by simpa [Screen.N_ROWS] using hy
      rw [hstep, if_pos (rowsOk_break mem idx startY (fuel + 1) row hy')]
      simp only [drawnAt_break mem idx startX startY (fuel + 1) row _ hy',
        collAt_break mem idx startX startY (fuel + 1) row s hy',
        Bool.false_eq_true, if_false]
    · have hy' : startY + row < 32 := by
        simp only [Screen.N_ROWS, not_le] at hy
        exact hy
      by_cases haddr : (idx + row) % 65536 < 4096
      · have hstep : drawRows mem idx startX startY (fuel + 1) row s vf =
            drawRows mem idx startX startY fuel (row + 1)
              ⟨fun i => if rowHit startX (startY + row) (mem ((idx + row) % 65536)) 0 i
                        then !s.pixels i else s.pixels i⟩
              (if rowColl startX (startY + row) (mem ((idx + row) % 65536)) 0 s
               then 1 else vf) := by
          simp only [drawRows]
          rw [if_neg hy, if_pos (show (idx + row) % 65536 < CPU.MEMORY_SIZE from haddr),
            drawBits_spec startX (startY + row) (mem ((idx + row) % 65536)) hy' 8 0 rfl s vf]
        rw [hstep, ih (row + 1)]
        rw [rowsOk_step mem idx startY fuel row hy', decide_eq_true haddr, Bool.true_and]
        by_cases hok : rowsOk mem idx startY fuel (row + 1) = true
        · rw [if_pos hok, if_pos hok]
          rw [collAt_masked mem idx startX startY fuel (row + 1) (startY + row)
            (mem ((idx + row) % 65536)) s (fun r hr => by omega)]
          simp only [Option.some.injEq, Prod.mk.injEq, Screen.mk.injEq]
          constructor
          · funext i
            dsimp only
            rw [drawnAt_step mem idx startX startY fuel row i hy']
            rcases hA : rowHit startX (startY + row) (mem ((idx + row) % 65536)) 0 i with _ | _
            · simp
            · rw [drawnAt_above mem idx startX startY fuel row i _ hA]
              simp
          · rw [collAt_step mem idx startX startY fuel row s hy']
            rcases hC1 : rowColl startX (startY + row) (mem ((idx + row) % 65536)) 0 s
                with _ | _ <;>
              rcases hC2 : collAt mem idx startX startY fuel (row + 1) s with _ | _ <;>
                simp
        · rw [if_neg hok, if_neg hok]
      · have hstep : drawRows mem idx startX startY (fuel + 1) row s vf = none := by
          simp only [drawRows]
          rw [if_neg hy, if_neg (show ¬((idx + row) % 65536 < CPU.MEMORY_SIZE) from haddr)]
        rw [hstep, if_neg (by
          rw [rowsOk_step mem idx startY fuel row hy']
          simp only [Bool.and_eq_true, decide_eq_true_eq]
          rintro ⟨hcon, _⟩
          exact haddr hcon)]

/-- `drawCore` in closed form: `drawRows_spec` at the wrapped starting
coordinates and VF accumulator 0. -/
theorem drawCore_spec (mem : Nat → Nat) (idx vx vy n : Nat) (s : Screen) :
    drawCore mem idx vx vy n s =
      if rowsOk mem idx (vy % Screen.N_ROWS) n 0 = true then
        some (⟨fun i => if drawnAt mem idx (vx % Screen.N_COLS) (vy % Screen.N_ROWS) n 0 i
                        then !s.pixels i else s.pixels i⟩,
              if collAt mem idx (vx % Screen.N_COLS) (vy % Screen.N_ROWS) n 0 s
               then 1 else 0)
      else none :=
  drawRows_spec mem idx (vx % Screen.N_COLS) (vy % Screen.N_ROWS) n 0 s 0

/-- **C7 (amended).** DRAW is self-inverse: if drawing a sprite (same
memory, same `I`, same coordinate values, same row count) once succeeds,
drawing it twice restores the framebuffer exactly; and VF after the
second draw is 1 iff some pixel covered by a set (and unclipped) sprite
bit was *off* beforehand. -/
theorem draw_self_inverse (mem : Nat → Nat) (idx vx vy n : Nat) (s s₁ : Screen)
    (vf₁ : Nat) (h1 : drawCore mem idx vx vy n s = some (s₁, vf₁)) :
    ∃ vf₂, drawCore mem idx vx vy n s₁ = some (s, vf₂) ∧
      (vf₂ = 1 ↔ ∃ i, drawnAt mem idx (vx % Screen.N_COLS) (vy % Screen.N_ROWS) n 0 i = true ∧
        s.pixels i = false) := by
  rw [drawCore_spec] at h1
  by_cases hok : rowsOk mem idx (vy % Screen.N_ROWS) n 0 = true
  swap
  · rw [if_neg hok] at h1
    cases h1
  rw [if_pos hok] at h1
  simp only [Option.some.injEq, Prod.mk.injEq] at h1
  obtain ⟨hs1, hvf1⟩ := h1
  subst hs1
  refine ⟨if collAt mem idx (vx % Screen.N_COLS) (vy % Screen.N_ROWS) n 0
      ⟨fun i => if drawnAt mem idx (vx % Screen.N_COLS) (vy % Screen.N_ROWS) n 0 i
                then !s.pixels i else s.pixels i⟩ then 1 else 0, ?_, ?_⟩
  · rw [drawCore_spec, if_pos hok]
    obtain ⟨sp⟩ := s
    simp only [Option.some.injEq, Prod.mk.injEq, Screen.mk.injEq]
    refine ⟨?_, trivial⟩
    funext i
    dsimp only
    rcases hD : drawnAt mem idx (vx % Screen.N_COLS) (vy % Screen.N_ROWS) n 0 i with _ | _ <;>
      simp
  · constructor
    · intro hvf2
      rcases hC : collAt mem idx (vx % Screen.N_COLS) (vy % Screen.N_ROWS) n 0
          ⟨fun i => if drawnAt mem idx (vx % Screen.N_COLS) (vy % Screen.N_ROWS) n 0 i
                    then !s.pixels i else s.pixels i⟩ with _ | _
      · rw [hC] at hvf2
        simp at hvf2
      · obtain ⟨r, hr, hyr, hcoll⟩ := (collAt_iff _ _ _ _ _ _ _).1 hC
        obtain ⟨b, hb8, hbp, hb64, hbit, hpix⟩ := (rowColl_iff _ _ _ _ _).1 hcoll
        refine ⟨Screen.get_idx (vx % Screen.N_COLS + b) (vy % Screen.N_ROWS + (0 + r)), ?_, ?_⟩
        · exact (drawnAt_iff _ _ _ _ _ _ _).2 ⟨r, hr, hyr,
            (rowHit_iff _ _ _ _ _).2 ⟨b, hb8, hbp, hb64, hbit, rfl⟩⟩
        · have hD : drawnAt mem idx (vx % Screen.N_COLS) (vy % Screen.N_ROWS) n 0
              (Screen.get_idx (vx % Screen.N_COLS + b) (vy % Screen.N_ROWS + (0 + r))) = true :=
            (drawnAt_iff _ _ _ _ _ _ _).2 ⟨r, hr, hyr,
              (rowHit_iff _ _ _ _ _).2 ⟨b, hb8, hbp, hb64, hbit, rfl⟩⟩
          dsimp only at hpix
          rw [hD] at hpix
          simp only [if_true] at hpix
          rcases hsval : s.pixels
              (Screen.get_idx (vx % Screen.N_COLS + b) (vy % Screen.N_ROWS + (0 + r))) with _ | _
          · rfl
          · rw [hsval] at hpix
            cases hpix
    · rintro ⟨i, hD, hoff⟩
      obtain ⟨r, hr, hyr, hhit⟩ := (drawnAt_iff _ _ _ _ _ _ _).1 hD
      obtain ⟨b, hb8, hbp, hb64, hbit, hidx⟩ := (rowHit_iff _ _ _ _ _).1 hhit
      have hC : collAt mem idx (vx % Screen.N_COLS) (vy % Screen.N_ROWS) n 0
          ⟨fun i => if drawnAt mem idx (vx % Screen.N_COLS) (vy % Screen.N_ROWS) n 0 i
                    then !s.pixels i else s.pixels i⟩ = true := by
        refine (collAt_iff _ _ _ _ _ _ _).2 ⟨r, hr, hyr, (rowColl_iff _ _ _ _ _).2
          ⟨b, hb8, hbp, hb64, hbit, ?_⟩⟩
        dsimp only
        rw [← hidx, hD, hoff]
        simp
      rw [hC]
      simp

/-- **C7 (witness).** Drawing the one-pixel sprite `0x80` at `(0,0)` on
an empty screen and then again restores the empty screen; the second-draw
flag is 1 because the drawn pixel was off beforehand. -/
theorem draw_self_inverse_witness :
    ∃ vf₂, drawCore mem0x80 0 0 0 1 (screen0.set_pixel 0 0 true) = some (screen0, vf₂) ∧
      (vf₂ = 1 ↔ ∃ i, drawnAt mem0x80 0 (0 % Screen.N_COLS) (0 % Screen.N_ROWS) 1 0 i = true ∧
        screen0.pixels i = false) :=
  draw_self_inverse mem0x80 0 0 0 1 screen0 (screen0.set_pixel 0 0 true) 0 (by rfl)

/-- **C7 (counterexample).** On an all-on screen, the pixel covered by
the sprite `0x80` is on beforehand, yet VF after the second draw is 0 —
refuting "VF after the second draw is 1 iff any pixel of the sprite was
on beforehand" (the correct condition is *off* beforehand). -/
theorem draw_self_inverse_cex :
    drawTwiceVF mem0x80 0 0 0 1 screenOn = some 0 ∧
    drawnAt mem0x80 0 0 0 1 0 (Screen.get_idx 0 0) = true ∧
    screenOn.pixels (Screen.get_idx 0 0) = true := by
  refine ⟨rfl, by rfl, rfl⟩

/-- **C9.** Decoding is total and side-effect free: `decode` is a pure
function of the 16-bit opcode alone, every failure is consumed as
`Invalid` (`decodeTotal`), every `0NNN` opcode other than `00E0` / `00EE`
maps to `ExecuteMachineLangRoutine`, every group-8 opcode whose last
nibble is not in `{0,…,7,E}` decodes as `Invalid`, and every `5XYn` /
`9XYn` opcode with `n ≠ 0` decodes as `Invalid`. -/
theorem decode_total :
    (∀ raw, Decoder.decode raw = some (Decoder.decodeTotal raw) ∨
      (Decoder.decode raw = none ∧ Decoder.decodeTotal raw = .Invalid)) ∧
    (∀ raw, Decoder.nib1 raw = 0 →
      Decoder.decodeTotal raw =
        (if Decoder.nib2 raw = 0 ∧ Decoder.nib3 raw = 0xE ∧ Decoder.nib4 raw = 0 then
          .ClearScreen
         else if Decoder.nib2 raw = 0 ∧ Decoder.nib3 raw = 0xE ∧ Decoder.nib4 raw = 0xE then
          .Return
         else .ExecuteMachineLangRoutine)) ∧
    (∀ raw, Decoder.nib1 raw = 8 → ¬(Decoder.nib4 raw < 8 ∨ Decoder.nib4 raw = 0xE) →
      Decoder.decodeTotal raw = .Invalid) ∧
    (∀ raw, Decoder.nib1 raw = 5 → Decoder.nib4 raw ≠ 0 →
      Decoder.decodeTotal raw = .Invalid) ∧
    (∀ raw, Decoder.nib1 raw = 9 → Decoder.nib4 raw ≠ 0 →
      Decoder.decodeTotal raw = .Invalid) := by
  refine ⟨?_, ?_, ?_, ?_, ?_⟩
  · intro raw
    cases hd : Decoder.decode raw <;> simp [Decoder.decodeTotal, hd]
  · intro raw h1
    simp only [Decoder.decodeTotal, Decoder.decode, h1]
    norm_num
    split_ifs <;> rfl
  · intro raw h1 h4
    have hle : Decoder.nib4 raw ≤ 15 := Nat.and_le_right
    have hcase : Decoder.nib4 raw = 8 ∨ Decoder.nib4 raw = 9 ∨ Decoder.nib4 raw = 10 ∨
        Decoder.nib4 raw = 11 ∨ Decoder.nib4 raw = 12 ∨ Decoder.nib4 raw = 13 ∨
        Decoder.nib4 raw = 15 := by omega
    rcases hcase with h | h | h | h | h | h | h <;>
      simp [Decoder.decodeTotal, Decoder.decode, h1, h]
  · intro raw h1 h4
    simp [Decoder.decodeTotal, Decoder.decode, h1, h4]
  · intro raw h1 h4
    simp [Decoder.decodeTotal, Decoder.decode, h1, h4]

/-- **C9 (witness).** Opcode `0x8008` (group 8, last nibble 8) decodes
as `Invalid`. -/
theorem decode_total_witness : Decoder.decodeTotal 0x8008 = .Invalid :=
  decode_total.2.2.1 0x8008 (by rfl) (by decide)

/-- **C5 (counterexample).** On COSMAC, `SHR` with `X = F`, `Y = 0` and
`V0 = 2`: bit 0 of the pre-shift value (`Vy = 2`) is 0, but VF ends as 1
(the shifted value), so "VF receives bit 0 of the pre-shift value" fails
for the pair `(VF, V0)`. -/
theorem shift_quirk_cex :
    (hardwareExecuteRegOp .Cosmac .ShiftRight 15 0 cpuV0is2).register_val 15 = 1 ∧
    cpuV0is2.register_val 0 &&& 1 = 0 := by
  constructor <;> rfl

end Chip8Emu
